import Mathlib

/-!
Shallow embedding of django-activity-stream (defunct variant).

Source files embedded:
  * `actstream/models.py`   — `Action`, `Follow`, their managers (stream
    queries), the module-level `follow`/`unfollow` helpers and the
    `action_handler` signal receiver;
  * `actstream/gfk.py`      — the final `GFKQuerySet.fetch_generic_relations`
    (multi-db / text-pk variant);
  * `actstream/managers.py` — the earlier `GFKQuerySet.fetch_generic_relations`
    variant that implements the dangling-row exclusion policy.

Modelling conventions:
  * A Django `QuerySet` is modelled by its materialised list of rows, in the
    order the backing store returns them; `filter`/`exclude` are list filters,
    `order_by('-timestamp')` is a stable descending sort on the timestamp.
  * Python `dict`s are association lists with insert-or-replace update
    (`dset`) and lookup (`dget`), preserving first-insertion key order as
    Python dicts do.
  * Database timestamps are `Nat`; `auto_now_add` columns receive an explicit
    `now` parameter at creation time.
  * Nullable columns are `Option`-valued; a model instance handed to the
    dispatch handler is a `PyObj` whose `pk` is `none` when the object has no
    primary-key attribute and whose `ct` is `none` when
    `ContentType.objects.get_for_model` cannot resolve its type.
  * Exceptions are `Except String`; an `Except.error` result means the Python
    call raised before returning (and hence persisted nothing).
-/

/-- Python dict update `d[k] = v`: replace the binding if the key is present,
otherwise append it, keeping first-insertion order. -/
def dset {α β : Type} [DecidableEq α] (k : α) (v : β) : List (α × β) → List (α × β)
  | [] => [(k, v)]
  | (k', v') :: rest => if k' = k then (k', v) :: rest else (k', v') :: dset k v rest

/-- Python dict lookup `d[k]` / `d.get(k)`. -/
def dget {α β : Type} [DecidableEq α] (k : α) : List (α × β) → Option β
  | [] => none
  | (k', v') :: rest => if k' = k then some v' else dget k rest

/-- Stable insertion (descending in `key`) used to model `order_by('-...')`. -/
def insertDesc {α : Type} (key : α → Nat) (a : α) : List α → List α
  | [] => [a]
  | b :: bs => if key b < key a then a :: b :: bs else b :: insertDesc key a bs

/-- Stable descending sort on `key`, modelling SQL `ORDER BY key DESC`. -/
def sortDesc {α : Type} (key : α → Nat) : List α → List α
  | [] => []
  | a :: as => insertDesc key a (sortDesc key as)

theorem mem_insertDesc {α : Type} (key : α → Nat) (a x : α) (l : List α) :
    x ∈ insertDesc key a l ↔ x = a ∨ x ∈ l := by
  induction l with
  | nil => simp [insertDesc]
  | cons b bs ih =>
      by_cases h : key b < key a
      · simp only [insertDesc, if_pos h, List.mem_cons]
      · simp only [insertDesc, if_neg h, List.mem_cons, ih]
        tauto

theorem mem_sortDesc {α : Type} (key : α → Nat) (x : α) (l : List α) :
    x ∈ sortDesc key l ↔ x ∈ l := by
  induction l with
  | nil => simp [sortDesc]
  | cons a as ih => simp [sortDesc, mem_insertDesc, ih, List.mem_cons]

theorem pairwise_insertDesc {α : Type} (key : α → Nat) (a : α) (l : List α)
    (h : l.Pairwise (fun x y => key y ≤ key x)) :
    (insertDesc key a l).Pairwise (fun x y => key y ≤ key x) := by
  induction l with
  | nil => simp [insertDesc]
  | cons b bs ih =>
      rcases List.pairwise_cons.mp h with ⟨hb, hbs⟩
      by_cases hlt : key b < key a
      · simp only [insertDesc, if_pos hlt]
        refine List.pairwise_cons.mpr ⟨?_, h⟩
        intro y hy
        rcases List.mem_cons.mp hy with rfl | hy
        · exact Nat.le_of_lt hlt
        · exact Nat.le_trans (hb y hy) (Nat.le_of_lt hlt)
      · simp only [insertDesc, if_neg hlt]
        refine List.pairwise_cons.mpr ⟨?_, ih hbs⟩
        intro y hy
        rcases (mem_insertDesc key a y bs).mp hy with rfl | hy
        · exact Nat.le_of_not_lt hlt
        · exact hb y hy

theorem pairwise_sortDesc {α : Type} (key : α → Nat) (l : List α) :
    (sortDesc key l).Pairwise (fun x y => key y ≤ key x) := by
  induction l with
  | nil => simp [sortDesc]
  | cons a as ih => exact pairwise_insertDesc key a _ ih

/-! ## Data model (`actstream/models.py`)

`Action`: actor (non-null generic FK), verb, optional description, optional
subject and target generic FKs, `public` flag defaulting to true, and an
`auto_now_add` timestamp.  `Follow`: user FK, subject generic FK, `started`
timestamp. -/

structure ActionRec where
  actor_content_type : Nat
  actor_object_id : Nat
  verb : String
  description : Option String := none
  subject_content_type : Option Nat := none
  subject_object_id : Option Nat := none
  target_content_type : Option Nat := none
  target_object_id : Option Nat := none
  public : Bool := true
  timestamp : Nat
  deriving DecidableEq, Repr

structure FollowRec where
  user : Nat
  content_type : Nat
  object_id : Nat
  started : Nat
  deriving DecidableEq, Repr

/-- An arbitrary model instance as seen by `action_handler` / `follow`:
`pk` is `none` when the object lacks a primary-key attribute (so `obj.pk`
raises `AttributeError`), `ct` is `none` when
`ContentType.objects.get_for_model` cannot recognise its type (raises). -/
structure PyObj where
  pk : Option Nat
  ct : Option Nat
  deriving DecidableEq, Repr

/-! ## Stream queries (`ActionManager`, `FollowManager`) -/

/-- `ActionManager.stream_for_actor`: filter on the actor's content type and
object id, `.exclude(public=False)`, `.order_by('-timestamp')`. -/
def stream_for_actor (db : List ActionRec) (ct oid : Nat) : List ActionRec :=
  sortDesc (fun a => a.timestamp)
    (db.filter (fun a =>
      a.actor_content_type = ct ∧ a.actor_object_id = oid ∧ ¬ a.public = false))

/-- `ActionManager.stream_for_model`: filter on the actor's content type only
(no visibility filter), `.order_by('-timestamp')`. -/
def stream_for_model (db : List ActionRec) (ct : Nat) : List ActionRec :=
  sortDesc (fun a => a.timestamp) (db.filter (fun a => a.actor_content_type = ct))

/-- `ActionManager.stream_for_subject`: filter on the subject's content type
and object id, `.exclude(public=False)`, `.order_by('-timestamp')`. -/
def stream_for_subject (db : List ActionRec) (ct oid : Nat) : List ActionRec :=
  sortDesc (fun a => a.timestamp)
    (db.filter (fun a =>
      a.subject_content_type = some ct ∧ a.subject_object_id = some oid ∧
        ¬ a.public = false))

/-- `FollowManager.stream_for_user`: for each follow of the user, take
`stream_for_subject(follow.subject).filter(timestamp__gt=follow.started)`;
if the user has at least one follow, OR the querysets together and order by
`-timestamp`; otherwise the function falls off the end and returns `None`.
The OR of querysets is the set of rows satisfying any branch (each row
appearing once), which over the materialised list is a single filter.
`follow.subject` resolves through the generic FK to the entity whose content
type and pk are the follow's own `content_type`/`object_id` columns. -/
def stream_for_user (fdb : List FollowRec) (db : List ActionRec) (user : Nat) :
    Option (List ActionRec) :=
  let follows := fdb.filter (fun f => f.user = user)
  if follows.isEmpty then none
  else
    some (sortDesc (fun a => a.timestamp)
      (db.filter (fun a => follows.any (fun f =>
        a.subject_content_type = some f.content_type ∧
        a.subject_object_id = some f.object_id ∧
        ¬ a.public = false ∧ f.started < a.timestamp))))

/-! ## Event dispatch (`action_handler`, `Action.objects.get_or_create`)

`action_handler(verb, target=None, public=True, subject='actor', **kwargs)`
pops the sender (the actor) and the signal object out of `kwargs`, builds a
keyword dict `kw`, resolves the subject through one of three branches, adds
the target columns when a target is given, merges the remaining `kwargs`
into `kw` (later keys override), and calls `Action.objects.get_or_create(**kw)`.
The dict is modelled as an association list over the `Action` columns. -/

inductive Col
  | actor_content_type
  | actor_object_id
  | verb
  | description
  | subject_content_type
  | subject_object_id
  | target_content_type
  | target_object_id
  | public
  deriving DecidableEq, Repr

inductive Val
  | nat (n : Nat)
  | str (s : String)
  | bool (b : Bool)
  | null
  deriving DecidableEq, Repr

/-- The value a persisted row exposes for a column when filtered
(`NULL` columns compare against `None`). -/
def colVal (r : ActionRec) : Col → Val
  | .actor_content_type => .nat r.actor_content_type
  | .actor_object_id => .nat r.actor_object_id
  | .verb => .str r.verb
  | .description => (r.description.map Val.str).getD .null
  | .subject_content_type => (r.subject_content_type.map Val.nat).getD .null
  | .subject_object_id => (r.subject_object_id.map Val.nat).getD .null
  | .target_content_type => (r.target_content_type.map Val.nat).getD .null
  | .target_object_id => (r.target_object_id.map Val.nat).getD .null
  | .public => .bool r.public

/-- `get_or_create(**kw)` filter semantics: the row matches every keyword. -/
def kwMatches (kw : List (Col × Val)) (r : ActionRec) : Prop :=
  ∀ cv ∈ kw, colVal r cv.1 = cv.2

instance (kw : List (Col × Val)) (r : ActionRec) : Decidable (kwMatches kw r) :=
  inferInstanceAs (Decidable (∀ cv ∈ kw, colVal r cv.1 = cv.2))

def getNatCol (kw : List (Col × Val)) (c : Col) (dflt : Nat) : Nat :=
  match dget c kw with
  | some (.nat n) => n
  | _ => dflt

def getOptNatCol (kw : List (Col × Val)) (c : Col) : Option Nat :=
  match dget c kw with
  | some (.nat n) => some n
  | _ => none

def getStrCol (kw : List (Col × Val)) (c : Col) (dflt : String) : String :=
  match dget c kw with
  | some (.str s) => s
  | _ => dflt

def getOptStrCol (kw : List (Col × Val)) (c : Col) : Option String :=
  match dget c kw with
  | some (.str s) => some s
  | _ => none

def getBoolCol (kw : List (Col × Val)) (c : Col) (dflt : Bool) : Bool :=
  match dget c kw with
  | some (.bool b) => b
  | _ => dflt

/-- `Action(**kw)` at creation time: unset columns take the model defaults
(`public=True`, nullable columns `NULL`); `timestamp` is `auto_now_add`. -/
def mkAction (kw : List (Col × Val)) (now : Nat) : ActionRec where
  actor_content_type := getNatCol kw .actor_content_type 0
  actor_object_id := getNatCol kw .actor_object_id 0
  verb := getStrCol kw .verb ""
  description := getOptStrCol kw .description
  subject_content_type := getOptNatCol kw .subject_content_type
  subject_object_id := getOptNatCol kw .subject_object_id
  target_content_type := getOptNatCol kw .target_content_type
  target_object_id := getOptNatCol kw .target_object_id
  public := getBoolCol kw .public true
  timestamp := now

/-- `Action.objects.get_or_create(**kw)`: `get` returns the unique matching
row, raises `MultipleObjectsReturned` on more than one, and on `DoesNotExist`
a new row is created and appended to the store. -/
def get_or_create (db : List ActionRec) (kw : List (Col × Val)) (now : Nat) :
    Except String (List ActionRec × ActionRec) :=
  match db.filter (fun r => kwMatches kw r) with
  | [] => let r := mkAction kw now; .ok (db ++ [r], r)
  | [r] => .ok (db, r)
  | _ => .error "MultipleObjectsReturned"

/-- The `subject` keyword of `action_handler`: the Python default is the
string `'actor'`, the caller may pass the string `'target'`, and any other
value is assumed to be a model instance. -/
inductive SubjectArg
  | actorDefault
  | targetAsSubject
  | other (o : PyObj)
  deriving DecidableEq, Repr

/-- The dict built by `action_handler` before `get_or_create`, or the
exception the handler raises while building it.  Branches, in source order:
`subject == 'actor'` copies the actor's columns; `subject == 'target'` reads
`target.pk` (an unhandled `AttributeError` when the target is `None` or has
no pk, an unhandled content-type error when its type is unrecognised);
otherwise the explicit object must expose a pk and a recognised content
type.  A missing content type is re-raised as the descriptive `Exception`;
in the missing-pk branch the message `%`-formatting is malformed — one
placeholder, three arguments — so the `%`-operation itself raises
`TypeError: not all arguments converted during string formatting` and the
descriptive `Exception` is never constructed (an exception still escapes
immediately, but with the interpreter's formatting message).  Then the
target columns when `target` is truthy, then the extra `kwargs` merged
last. -/
def buildKW (actor : PyObj) (verb : String) (target : Option PyObj)
    (pub : Bool) (subject : SubjectArg) (kwargs : List (Col × Val)) :
    Except String (List (Col × Val)) := do
  let apk ← match actor.pk with
    | some n => Except.ok n
    | none => Except.error "AttributeError: object has no attribute pk"
  let act ← match actor.ct with
    | some n => Except.ok n
    | none => Except.error "ContentType matching query does not exist"
  let kw := dset .public (.bool pub) (dset .verb (.str verb)
    (dset .actor_object_id (.nat apk)
      (dset .actor_content_type (.nat act) [])))
  let kw ← match subject with
    | .actorDefault =>
        Except.ok (dset .subject_content_type (.nat act)
          (dset .subject_object_id (.nat apk) kw))
    | .targetAsSubject => do
        let t ← match target with
          | some t => Except.ok t
          | none => Except.error "AttributeError: NoneType has no attribute pk"
        let tpk ← match t.pk with
          | some n => Except.ok n
          | none => Except.error "AttributeError: object has no attribute pk"
        let tct ← match t.ct with
          | some n => Except.ok n
          | none => Except.error "ContentType matching query does not exist"
        Except.ok (dset .subject_content_type (.nat tct)
          (dset .subject_object_id (.nat tpk) kw))
    | .other o => do
        let opk ← match o.pk with
          | some n => Except.ok n
          | none =>
              Except.error
                "TypeError: not all arguments converted during string formatting"
        let oct ← match o.ct with
          | some n => Except.ok n
          | none =>
              Except.error "Invalid model/object: was not a recognized content type"
        Except.ok (dset .subject_content_type (.nat oct)
          (dset .subject_object_id (.nat opk) kw))
  let kw ← match target with
    | some t => do
        let tpk ← match t.pk with
          | some n => Except.ok n
          | none => Except.error "AttributeError: object has no attribute pk"
        let tct ← match t.ct with
          | some n => Except.ok n
          | none => Except.error "ContentType matching query does not exist"
        Except.ok (dset .target_content_type (.nat tct)
          (dset .target_object_id (.nat tpk) kw))
    | none => Except.ok kw
  Except.ok (kwargs.foldl (fun k cv => dset cv.1 cv.2 k) kw)

/-- `action_handler`: build the keyword dict, then `get_or_create`; returns
the updated store.  An error is raised before the store is touched. -/
def action_handler (db : List ActionRec) (actor : PyObj) (verb : String)
    (target : Option PyObj) (pub : Bool) (subject : SubjectArg)
    (kwargs : List (Col × Val)) (now : Nat) : Except String (List ActionRec) := do
  let kw ← buildKW actor verb target pub subject kwargs
  let (db', _) ← get_or_create db kw now
  Except.ok db'

/-- Number of persisted rows matching a keyword dict. -/
def countMatching (db : List ActionRec) (kw : List (Col × Val)) : Nat :=
  db.countP (fun r => kwMatches kw r)

/-! ## Follow / unfollow helpers (`models.py`)

`follow(user, subject)` first evaluates
`settings.get('ACTIVITY_HIDE_FOLLOWING')` to decide whether to send the
`started following` action signal, then creates and returns a `Follow` row
whose `started` column is `auto_now_add`.  But the `django.conf.settings`
object exposes the configuration only as attributes and has no `get` method
(elsewhere this repository reads a possibly-absent setting with attribute
access under `try/except AttributeError`), so the very first expression of
the function raises `AttributeError` on every call: neither the signal nor
`Follow.objects.create` is ever reached. -/

structure Settings where
  activity_hide_following : Bool
  deriving DecidableEq, Repr

/-- `settings.get(key)`: the settings holder has no `get` attribute, so the
lookup raises before the intended toggle value is produced. -/
def Settings.get (cfg : Settings) (key : String) : Except String Bool :=
  Except.error "AttributeError: Settings object has no attribute get"

def follow (cfg : Settings) (adb : List ActionRec) (fdb : List FollowRec)
    (user subject : PyObj) (now : Nat) :
    Except String (List ActionRec × List FollowRec × FollowRec) := do
  let hide ← Settings.get cfg "ACTIVITY_HIDE_FOLLOWING"
  let adb' ←
    if hide then Except.ok adb
    else (action_handler adb user "started following" (some subject) true
      SubjectArg.actorDefault [] now)
  let upk ← match user.pk with
    | some n => Except.ok n
    | none => Except.error "AttributeError: object has no attribute pk"
  let spk ← match subject.pk with
    | some n => Except.ok n
    | none => Except.error "AttributeError: object has no attribute pk"
  let sct ← match subject.ct with
    | some n => Except.ok n
    | none => Except.error "ContentType matching query does not exist"
  let f : FollowRec := { user := upk, content_type := sct, object_id := spk, started := now }
  Except.ok (adb', fdb ++ [f], f)

/-! ## Generic-foreign-key batch resolution

Shared row model for both `GFKQuerySet.fetch_generic_relations` variants.
A row carries, per generic-FK field (identified by its name), the raw
discriminator column (`ct`), the raw identifier column (`fk`), and the
resolved-entity attribute (`attached`): `none` while the lazy placeholder is
untouched, `some v` once `setattr(item, gfk.name, v)` ran. -/

structure Entity where
  ctId : Nat
  pk : Nat
  deriving DecidableEq, Repr

/-- Declared metadata of one generic-FK field: its name and the
`null`/`blank` flags of its two underlying columns. -/
structure FieldMeta where
  name : Nat
  ctNull : Bool := false
  ctBlank : Bool := false
  fkNull : Bool := false
  fkBlank : Bool := false
  deriving DecidableEq, Repr

structure PolyRef where
  ct : Option Nat := none
  fk : Option Nat := none
  attached : Option (Option Entity) := none
  deriving DecidableEq, Repr

structure Row where
  pk : Nat
  refs : List (Nat × PolyRef)
  deriving DecidableEq, Repr

/-- `getattr(item, field-column)` for the columns of the named generic FK. -/
def getRef (item : Row) (name : Nat) : PolyRef :=
  (dget name item.refs).getD {}

/-- `setattr(item, gfk.name, v)`. -/
def setAttached (item : Row) (name : Nat) (v : Option Entity) : Row :=
  { item with refs := dset name { getRef item name with attached := some v } item.refs }

/-- A direct point lookup of `(discriminator, identifier)` against the store
(primary-key fetch on the concrete model). -/
def directLookup (store : List Entity) (ct fk : Nat) : Option Entity :=
  store.find? (fun e => e.ctId = ct ∧ e.pk = fk)

/-- Python truthiness of a nullable integer column value. -/
def pyTruthy : Option Nat → Bool
  | none => false
  | some c => c ≠ 0

namespace GFK

/-!
`actstream/gfk.py` — the final (multi-db / text-primary-key) variant.
Identifier values are normalised with `smart_unicode` before being used as
dict keys, so identifier keys are strings here; `data_map` is keyed by
`(ct_id, smart_unicode(pk))` pairs.  A Python dict can hold keys of mixed
shapes, so the key type is a sum of those shapes.
-/

/-- Module-level settings read in `gfk.py` (with their `getattr` defaults). -/
structure GFKSettings where
  use_prefetch : Bool := false
  fetch_relations : Bool := true
  gfk_fetch_depth : Nat := 0
  deriving DecidableEq, Repr

inductive PyKey
  | pair (ct : Nat) (pk : String)
  | str (s : String)
  deriving DecidableEq, Repr

/-- First pass: `ct_map.setdefault(ct_id, {})[smart_unicode(fk)] =
(gfk.name, item.pk)`, skipping fields whose discriminator or identifier
column is `None`. -/
def buildCtMap (fields : List FieldMeta) (rows : List Row) :
    List (Nat × List (String × (Nat × Nat))) :=
  rows.foldl (fun m item =>
    fields.foldl (fun m gfk =>
      let ref := getRef item gfk.name
      match ref.ct, ref.fk with
      | some c, some f =>
          dset c (dset (toString f) (gfk.name, item.pk) ((dget c m).getD [])) m
      | _, _ => m) m) []

/-- Second pass over `ct_map.items()`: skip falsy discriminators, resolve the
content type from the `in_bulk` result (`ctypes[ct_id]` raises `KeyError`
when the discriminator is unrecognised), issue one bulk
`filter(pk__in=items_.keys())` per discriminator, and key the fetched
entities by `(ct_id, smart_unicode(o.pk))`.  The accumulated `Nat` counts
store queries, starting at 1 for the `ContentType.objects.in_bulk` call. -/
def buildDataMap (ctypes : List Nat) (store : List Entity) :
    List (Nat × List (String × (Nat × Nat))) → List (PyKey × Entity) → Nat →
    Except String (List (PyKey × Entity) × Nat)
  | [], dm, q => Except.ok (dm, q)
  | (ct_id, items_) :: rest, dm, q =>
      if ct_id ≠ 0 then
        if ct_id ∈ ctypes then
          let objects := store.filter (fun e =>
            e.ctId = ct_id ∧ toString e.pk ∈ items_.map Prod.fst)
          buildDataMap ctypes store rest
            (objects.foldl (fun dm o => dset (PyKey.pair ct_id (toString o.pk)) o dm) dm)
            (q + 1)
        else Except.error "KeyError: unrecognized content type id"
      else buildDataMap ctypes store rest dm q

/-- Third pass: for each populated identifier column, compute
`ctype`/`gfk_pk` (dead stores in the source), then look up
`key = smart_unicode(fk)` in `data_map` and attach on a hit; on a miss the
value is left as is. -/
def attachRows (fields : List FieldMeta) (dataMap : List (PyKey × Entity))
    (rows : List Row) : List Row :=
  rows.map (fun item =>
    fields.foldl (fun item gfk =>
      let ref := getRef item gfk.name
      match ref.fk with
      | some f =>
          match dget (PyKey.str (toString f)) dataMap with
          | some e => setAttached item gfk.name (some e)
          | none => item
      | none => item) item)

/-- `GFKQuerySet.fetch_generic_relations(*args)` from `gfk.py`.  Returns the
row list together with the number of store queries the resolver issued.
The `USE_PREFETCH` branch delegates eager loading to the framework's
`prefetch_related` and is returned unmodelled. -/
def fetch_generic_relations (cfg : GFKSettings) (ctypes : List Nat)
    (store : List Entity) (fields : List FieldMeta) (args : List Nat)
    (rows : List Row) : Except String (List Row × Nat) :=
  if cfg.fetch_relations = false then Except.ok (rows, 0)
  else
    let gfk_fields := if args.isEmpty then fields
      else fields.filter (fun g => g.name ∈ args)
    if cfg.use_prefetch then Except.ok (rows, 0)
    else do
      let ctMap := buildCtMap gfk_fields rows
      let (dataMap, q) ← buildDataMap ctypes store ctMap [] 1
      Except.ok (attachRows gfk_fields dataMap rows, q)

end GFK

namespace Managers

/-!
`actstream/managers.py` — the earlier variant with the dangling-row
exclusion policy.  Raw column values (which may be `None`) are used directly
as dict keys, `data_map` is keyed by `(ct_id, o.id)` pairs and is looked up
with `(ct_id, fk)` pairs, so here resolution actually attaches.  The
commented-out `print` debugging and the unused `item_map` / `profile_module`
`select_related` eager-loading do not affect which rows are returned and are
not modelled.
-/

/-- First pass: `ct_map.setdefault(ct_id, {})[fk] = (gfk.name, item.id)` with
no skipping of `None` column values. -/
def buildCtMap (fields : List FieldMeta) (rows : List Row) :
    List (Option Nat × List (Option Nat × (Nat × Nat))) :=
  rows.foldl (fun m item =>
    fields.foldl (fun m gfk =>
      let ref := getRef item gfk.name
      dset ref.ct (dset ref.fk (gfk.name, item.pk) ((dget ref.ct m).getD [])) m) m) []

/-- Second pass: for each truthy discriminator (`if (ct_id):` — Python
truthiness, so a `None` or `0` discriminator is skipped),
`ContentType.objects.get_for_id` (raises `DoesNotExist` when unrecognised),
then one bulk `filter(pk__in=items_.keys())`; fetched entities are keyed by
`(ct_id, o.id)`. -/
def buildDataMap (ctypes : List Nat) (store : List Entity) :
    List (Option Nat × List (Option Nat × (Nat × Nat))) →
    List ((Option Nat × Option Nat) × Entity) →
    Except String (List ((Option Nat × Option Nat) × Entity))
  | [], dm => Except.ok dm
  | (ct_id, items_) :: rest, dm =>
      match ct_id with
      | some c =>
          if c ≠ 0 then
            if c ∈ ctypes then
              buildDataMap ctypes store rest
                ((store.filter (fun e =>
                  e.ctId = c ∧ some e.pk ∈ items_.map Prod.fst)).foldl
                  (fun dm o => dset ((some c : Option Nat), some o.pk) o dm) dm)
            else Except.error "ContentType matching query does not exist"
          else buildDataMap ctypes store rest dm
      | none => buildDataMap ctypes store rest dm

/-- `missing_records`: `(ct_field, fk_field)` pairs — one per generic FK
field, identified here by the field name — mapping each discriminator value
to the list of identifier values whose entity was not fetched. -/
abbrev Missing : Type := List (Nat × List (Option Nat × List (Option Nat)))

/-- One step of the third pass for a single field of a single row: attach
from `data_map`, and on `KeyError` either clear a fully nullable reference
to `None` or record the value pair in `missing_records`
(`missing_records.setdefault((ct_field, fk_field), {}).setdefault(ct, []).append(fk)`). -/
def attachStep (dataMap : List ((Option Nat × Option Nat) × Entity))
    (gfk : FieldMeta) (item : Row) (miss : Missing) : Row × Missing :=
  if (getRef item gfk.name).fk ≠ none then
    match dget ((getRef item gfk.name).ct, (getRef item gfk.name).fk) dataMap with
    | some e => (setAttached item gfk.name (some e), miss)
    | none =>
        if (gfk.ctNull = true ∨ gfk.ctBlank = true) ∧
           (gfk.fkNull = true ∨ gfk.fkBlank = true) then
          (setAttached item gfk.name none, miss)
        else
          (item,
            dset gfk.name
              (dset (getRef item gfk.name).ct
                (((dget (getRef item gfk.name).ct
                    ((dget gfk.name miss).getD [])).getD []) ++
                  [(getRef item gfk.name).fk])
                ((dget gfk.name miss).getD []))
              miss)
  else (item, miss)

/-- Third pass over all rows and fields, threading `missing_records`. -/
def attachPass (fields : List FieldMeta)
    (dataMap : List ((Option Nat × Option Nat) × Entity)) (rows : List Row) :
    List Row × Missing :=
  rows.foldl (fun acc item =>
    (acc.1 ++ [(fields.foldl (fun p gfk => attachStep dataMap gfk p.1 p.2)
        (item, acc.2)).1],
      (fields.foldl (fun p gfk => attachStep dataMap gfk p.1 p.2)
        (item, acc.2)).2)) ([], ([] : Missing))

/-- Fourth pass: for every recorded `(field, discriminator, identifiers)`
group, `qs &= qs.exclude(ct_field__pk=ct, fk_field__in=objs)`. -/
def applyExclusions (missing : Missing) (rows : List Row) : List Row :=
  missing.foldl (fun qs fldEntry =>
    fldEntry.2.foldl (fun qs ctEntry =>
      qs.filter (fun item =>
        ¬((getRef item fldEntry.1).ct = ctEntry.1 ∧
          (getRef item fldEntry.1).fk ∈ ctEntry.2))) qs) rows

/-- `GFKQuerySet.fetch_generic_relations()` from `managers.py`.  The fourth
pass runs `qs &= qs.exclude(ct_field__pk=ct, fk_field__in=objs)` once per
recorded `missing_records` group.  Django's queryset `&` builds a fresh
combined queryset *without* the evaluated result cache, so the first
exclusion throws away the row objects the third pass mutated: the returned
queryset re-executes its SQL and yields fresh, unattached copies of the
original rows with the exclusion filters applied.  Only when
`missing_records` stayed empty (no `&=` ran) is the cached, attached `qs`
returned. -/
def fetch_generic_relations (ctypes : List Nat) (store : List Entity)
    (fields : List FieldMeta) (rows : List Row) : Except String (List Row) := do
  let ctMap := buildCtMap fields rows
  let dataMap ← buildDataMap ctypes store ctMap []
  let (rows', missing) := attachPass fields dataMap rows
  if missing.isEmpty then Except.ok rows'
  else Except.ok (applyExclusions missing rows)

end Managers

/-! ## Stream-query lemmas and claims -/

theorem mem_stream_for_actor (db : List ActionRec) (ct oid : Nat) (a : ActionRec) :
    a ∈ stream_for_actor db ct oid ↔
      a ∈ db ∧ a.actor_content_type = ct ∧ a.actor_object_id = oid ∧
        a.public = true := by
  simp [stream_for_actor, mem_sortDesc, List.mem_filter]

theorem mem_stream_for_subject (db : List ActionRec) (ct oid : Nat) (a : ActionRec) :
    a ∈ stream_for_subject db ct oid ↔
      a ∈ db ∧ a.subject_content_type = some ct ∧ a.subject_object_id = some oid ∧
        a.public = true := by
  simp [stream_for_subject, mem_sortDesc, List.mem_filter]

theorem mem_stream_for_model (db : List ActionRec) (ct : Nat) (a : ActionRec) :
    a ∈ stream_for_model db ct ↔ a ∈ db ∧ a.actor_content_type = ct := by
  simp [stream_for_model, mem_sortDesc, List.mem_filter]

/-- C5: a record created with `visible=false` (`public=False`) appears in no
by-actor stream and no by-subject stream, but does appear in the by-model
stream of its actor's entity type, which applies no visibility filter. -/
theorem invisible_action_streams (db : List ActionRec) (r : ActionRec)
    (hr : r ∈ db) (hpub : r.public = false) :
    (∀ ct oid, r ∉ stream_for_actor db ct oid) ∧
    (∀ ct oid, r ∉ stream_for_subject db ct oid) ∧
    r ∈ stream_for_model db r.actor_content_type := by
  refine ⟨?_, ?_, ?_⟩
  · intro ct oid h
    rcases (mem_stream_for_actor db ct oid r).mp h with ⟨-, -, -, hp⟩
    rw [hpub] at hp
    exact Bool.false_ne_true hp
  · intro ct oid h
    rcases (mem_stream_for_subject db ct oid r).mp h with ⟨-, -, -, hp⟩
    rw [hpub] at hp
    exact Bool.false_ne_true hp
  · exact (mem_stream_for_model db r.actor_content_type r).mpr ⟨hr, rfl⟩

theorem invisible_action_streams_witness :
    (⟨1, 2, "v", none, none, none, none, none, false, 3⟩ : ActionRec) ∈
        [(⟨1, 2, "v", none, none, none, none, none, false, 3⟩ : ActionRec)] ∧
    (⟨1, 2, "v", none, none, none, none, none, false, 3⟩ : ActionRec).public = false ∧
    ((∀ ct oid, (⟨1, 2, "v", none, none, none, none, none, false, 3⟩ : ActionRec) ∉
        stream_for_actor [⟨1, 2, "v", none, none, none, none, none, false, 3⟩] ct oid) ∧
     (∀ ct oid, (⟨1, 2, "v", none, none, none, none, none, false, 3⟩ : ActionRec) ∉
        stream_for_subject [⟨1, 2, "v", none, none, none, none, none, false, 3⟩] ct oid) ∧
     (⟨1, 2, "v", none, none, none, none, none, false, 3⟩ : ActionRec) ∈
        stream_for_model [⟨1, 2, "v", none, none, none, none, none, false, 3⟩]
          (⟨1, 2, "v", none, none, none, none, none, false, 3⟩ : ActionRec).actor_content_type) :=
  ⟨by decide, by decide,
    invisible_action_streams _ _ (by decide) (by decide)⟩

/-- C6: for a watcher with no follow relationships, `stream_for_user`
returns `None` (the Python function falls off the end), not an empty
queryset. -/
theorem stream_for_user_no_follows (fdb : List FollowRec) (db : List ActionRec)
    (user : Nat) (h : fdb.filter (fun f => f.user = user) = []) :
    stream_for_user fdb db user = none := by
  simp only [stream_for_user, h]
  rfl

theorem stream_for_user_no_follows_witness :
    ([⟨1, 5, 6, 0⟩] : List FollowRec).filter (fun f => f.user = 2) = [] ∧
    stream_for_user [⟨1, 5, 6, 0⟩] [⟨1, 1, "v", none, none, none, none, none, true, 3⟩] 2 = none :=
  ⟨by decide, stream_for_user_no_follows _ _ 2 (by decide)⟩

/-- C4: for a watcher with at least one follow, the personalized stream is
exactly the union, over the watcher's follows, of the followed subject's
by-subject stream restricted to records strictly newer than the follow's
`started` timestamp, sorted by timestamp descending (so a backdated record
older than `started` is absent). -/
theorem stream_for_user_union_spec (fdb : List FollowRec) (db : List ActionRec)
    (user : Nat) (hne : fdb.filter (fun f => f.user = user) ≠ []) :
    ∃ l, stream_for_user fdb db user = some l ∧
      (∀ a, a ∈ l ↔ ∃ f ∈ fdb, f.user = user ∧
        a ∈ stream_for_subject db f.content_type f.object_id ∧
        f.started < a.timestamp) ∧
      l.Pairwise (fun x y => y.timestamp ≤ x.timestamp) := by
  have hE : (fdb.filter (fun f => f.user = user)).isEmpty = false := by
    cases h : fdb.filter (fun f => f.user = user) with
    | nil => exact absurd h hne
    | cons f fs => rfl
  refine ⟨sortDesc (fun a => a.timestamp)
      (db.filter (fun a => (fdb.filter (fun f => f.user = user)).any (fun f =>
        a.subject_content_type = some f.content_type ∧
        a.subject_object_id = some f.object_id ∧
        ¬ a.public = false ∧ f.started < a.timestamp))), ?_, ?_, ?_⟩
  · simp only [stream_for_user, hE]
    rfl
  · intro a
    simp only [mem_sortDesc, List.mem_filter, List.any_eq_true, decide_eq_true_eq,
      mem_stream_for_subject, Bool.not_eq_false]
    tauto
  · exact pairwise_sortDesc _ _

theorem stream_for_user_union_spec_witness :
    ([⟨1, 10, 20, 5⟩] : List FollowRec).filter (fun f => f.user = 1) ≠ [] ∧
    ∃ l, stream_for_user [⟨1, 10, 20, 5⟩]
        [⟨10, 20, "a", none, some 10, some 20, none, none, true, 6⟩,
         ⟨10, 20, "b", none, some 10, some 20, none, none, true, 3⟩] 1 = some l ∧
      (∀ a, a ∈ l ↔ ∃ f ∈ ([⟨1, 10, 20, 5⟩] : List FollowRec), f.user = 1 ∧
        a ∈ stream_for_subject
          [⟨10, 20, "a", none, some 10, some 20, none, none, true, 6⟩,
           ⟨10, 20, "b", none, some 10, some 20, none, none, true, 3⟩]
          f.content_type f.object_id ∧ f.started < a.timestamp) ∧
      l.Pairwise (fun x y => y.timestamp ≤ x.timestamp) :=
  ⟨by decide, stream_for_user_union_spec _ _ 1 (by decide)⟩

/-! ## Dictionary lemmas -/

/-- A dict (association list built through `dset`) has no duplicate keys. -/
def KeysNodup {α β : Type} [DecidableEq α] (m : List (α × β)) : Prop :=
  (m.map Prod.fst).Nodup

theorem dget_dset_self {α β : Type} [DecidableEq α] (k : α) (v : β)
    (m : List (α × β)) : dget k (dset k v m) = some v := by
  induction m with
  | nil => simp [dset, dget]
  | cons kv rest ih =>
      obtain ⟨k', v'⟩ := kv
      by_cases h : k' = k
      · simp [dset, dget, h]
      · simp [dset, dget, h, ih]

theorem dget_dset_ne {α β : Type} [DecidableEq α] (k k' : α) (v : β)
    (m : List (α × β)) (h : k' ≠ k) : dget k' (dset k v m) = dget k' m := by
  induction m with
  | nil => simp [dset, dget, Ne.symm h]
  | cons kv rest ih =>
      obtain ⟨k0, v0⟩ := kv
      by_cases h0 : k0 = k
      · subst h0
        simp [dset, dget, Ne.symm h]
      · by_cases h1 : k0 = k'
        · subst h1
          simp [dset, dget, h0]
        · simp [dset, dget, h0, h1, ih]

theorem mem_dset {α β : Type} [DecidableEq α] (k : α) (v : β)
    (m : List (α × β)) (cv : α × β) (h : cv ∈ dset k v m) :
    cv = (k, v) ∨ cv ∈ m := by
  induction m with
  | nil => simpa [dset] using h
  | cons kv rest ih =>
      obtain ⟨k0, v0⟩ := kv
      by_cases h0 : k0 = k
      · simp only [dset, if_pos h0, List.mem_cons] at h
        rcases h with rfl | h
        · exact .inl (by rw [h0])
        · exact .inr (List.mem_cons_of_mem _ h)
      · simp only [dset, if_neg h0, List.mem_cons] at h
        rcases h with rfl | h
        · exact .inr (List.mem_cons_self _ _)
        · rcases ih h with h | h
          · exact .inl h
          · exact .inr (List.mem_cons_of_mem _ h)

theorem mem_keys_dset {α β : Type} [DecidableEq α] (k a : α) (v : β)
    (m : List (α × β)) : a ∈ (dset k v m).map Prod.fst ↔
      a = k ∨ a ∈ m.map Prod.fst := by
  induction m with
  | nil => simp [dset]
  | cons kv rest ih =>
      obtain ⟨k0, v0⟩ := kv
      by_cases h0 : k0 = k
      · subst h0
        simp [dset]
      · simp [dset, h0, ih]
        tauto

theorem keysNodup_dset {α β : Type} [DecidableEq α] (k : α) (v : β)
    (m : List (α × β)) (h : KeysNodup m) : KeysNodup (dset k v m) := by
  induction m with
  | nil => simp [KeysNodup, dset]
  | cons kv rest ih =>
      obtain ⟨k0, v0⟩ := kv
      have hk0 : k0 ∉ rest.map Prod.fst := (List.nodup_cons.mp h).1
      have hrest : KeysNodup rest := (List.nodup_cons.mp h).2
      by_cases h0 : k0 = k
      · subst h0
        rw [show dset k0 v ((k0, v0) :: rest) = (k0, v) :: rest from by
          simp [dset]]
        exact List.nodup_cons.mpr ⟨hk0, hrest⟩
      · rw [show dset k v ((k0, v0) :: rest) = (k0, v0) :: dset k v rest from by
          simp [dset, h0]]
        refine List.nodup_cons.mpr ⟨?_, ih hrest⟩
        rw [mem_keys_dset]
        rintro (rfl | hmem)
        · exact h0 rfl
        · exact hk0 hmem

theorem dget_mem {α β : Type} [DecidableEq α] (k : α) (v : β)
    (m : List (α × β)) (h : dget k m = some v) : (k, v) ∈ m := by
  induction m with
  | nil => simp [dget] at h
  | cons kv rest ih =>
      obtain ⟨k0, v0⟩ := kv
      by_cases h0 : k0 = k
      · subst h0
        have h' : v0 = v := by simpa [dget] using h
        subst h'
        exact List.mem_cons_self _ _
      · simp only [dget, if_neg h0] at h
        exact List.mem_cons_of_mem _ (ih h)

theorem mem_dget {α β : Type} [DecidableEq α] (k : α) (v : β)
    (m : List (α × β)) (hnd : KeysNodup m) (h : (k, v) ∈ m) :
    dget k m = some v := by
  induction m with
  | nil => simp at h
  | cons kv rest ih =>
      obtain ⟨k0, v0⟩ := kv
      have hk0 : k0 ∉ rest.map Prod.fst := (List.nodup_cons.mp hnd).1
      have hrest : KeysNodup rest := (List.nodup_cons.mp hnd).2
      rcases List.mem_cons.mp h with h | h
      · cases h
        simp [dget]
      · have hne : k0 ≠ k := by
          rintro rfl
          exact hk0 (List.mem_map.mpr ⟨(k0, v), h, rfl⟩)
        simp only [dget, if_neg hne]
        exact ih hrest h

/-- Values surviving a Python-style `dict.update` fold: if the initial dict
binds `c` to a value satisfying `P` and every update of `c` satisfies `P`,
the final dict still binds `c` to a value satisfying `P`. -/
theorem dget_foldl_dset {α β : Type} [DecidableEq α] (c : α) (P : β → Prop)
    (kwargs : List (α × β)) (kw0 : List (α × β))
    (h0 : ∃ v, dget c kw0 = some v ∧ P v)
    (hk : ∀ v, (c, v) ∈ kwargs → P v) :
    ∃ v, dget c (kwargs.foldl (fun k cv => dset cv.1 cv.2 k) kw0) = some v ∧ P v := by
  induction kwargs generalizing kw0 with
  | nil => exact h0
  | cons cv rest ih =>
      obtain ⟨c', v'⟩ := cv
      refine ih (dset c' v' kw0) ?_ (fun v hv => hk v (List.mem_cons_of_mem _ hv))
      by_cases hc : c' = c
      · subst hc
        exact ⟨v', dget_dset_self _ _ _, hk v' (List.mem_cons_self _ _)⟩
      · obtain ⟨v, hv, hP⟩ := h0
        exact ⟨v, (dget_dset_ne c' c v' kw0 (Ne.symm hc)).trans hv, hP⟩

theorem all_foldl_dset {α β : Type} [DecidableEq α] (Q : α × β → Prop)
    (kwargs : List (α × β)) (kw0 : List (α × β))
    (h0 : ∀ cv ∈ kw0, Q cv) (hk : ∀ cv ∈ kwargs, Q cv) :
    ∀ cv ∈ kwargs.foldl (fun k cv => dset cv.1 cv.2 k) kw0, Q cv := by
  induction kwargs generalizing kw0 with
  | nil => exact h0
  | cons cv rest ih =>
      refine ih (dset cv.1 cv.2 kw0) ?_ (fun x hx => hk x (List.mem_cons_of_mem _ hx))
      intro x hx
      rcases mem_dset _ _ _ _ hx with rfl | hx
      · exact hk _ (List.mem_cons_self _ _)
      · exact h0 x hx

theorem keysNodup_foldl_dset {α β : Type} [DecidableEq α]
    (kwargs : List (α × β)) (kw0 : List (α × β)) (h : KeysNodup kw0) :
    KeysNodup (kwargs.foldl (fun k cv => dset cv.1 cv.2 k) kw0) := by
  induction kwargs generalizing kw0 with
  | nil => exact h
  | cons cv rest ih => exact ih _ (keysNodup_dset _ _ _ h)

/-! ## Keyword-dict facts about `buildKW` and `get_or_create` -/

/-- Column/value shapes that the store would accept as a filter or create
value for the column (identifier columns take integers, nullable ones also
`NULL`, and so on). -/
def valTyped : Col → Val → Bool
  | .actor_content_type, .nat _ => true
  | .actor_object_id, .nat _ => true
  | .verb, .str _ => true
  | .public, .bool _ => true
  | .description, .str _ => true
  | .description, .null => true
  | .subject_content_type, .nat _ => true
  | .subject_content_type, .null => true
  | .subject_object_id, .nat _ => true
  | .subject_object_id, .null => true
  | .target_content_type, .nat _ => true
  | .target_content_type, .null => true
  | .target_object_id, .nat _ => true
  | .target_object_id, .null => true
  | _, _ => false

/-- Structure of every successfully built keyword dict: the extra `kwargs`
folded over a base dict that has no duplicate keys, is well shaped, and binds
both subject columns to concrete integers (whichever of the three subject
branches ran). -/
theorem buildKW_spec (actor : PyObj) (verb : String) (target : Option PyObj)
    (pub : Bool) (subject : SubjectArg) (kwargs : List (Col × Val))
    (kw : List (Col × Val))
    (hkw : buildKW actor verb target pub subject kwargs = Except.ok kw) :
    ∃ base : List (Col × Val), kw = kwargs.foldl (fun k cv => dset cv.1 cv.2 k) base ∧
      KeysNodup base ∧ (∀ cv ∈ base, valTyped cv.1 cv.2 = true) ∧
      (∃ n, dget Col.subject_object_id base = some (Val.nat n)) ∧
      (∃ n, dget Col.subject_content_type base = some (Val.nat n)) := by
  rcases actor with ⟨apk?, act?⟩
  cases apk? with
  | none => exact Except.noConfusion hkw
  | some apk =>
  cases act? with
  | none => exact Except.noConfusion hkw
  | some act =>
  cases subject with
  | actorDefault =>
    rcases target with - | ⟨tpk?, tct?⟩
    · injection hkw with h
      refine ⟨_, h.symm, ?_, ?_, ⟨_, rfl⟩, ⟨_, rfl⟩⟩
      · exact (by decide : ([Col.actor_content_type, Col.actor_object_id, Col.verb,
          Col.public, Col.subject_object_id, Col.subject_content_type] : List Col).Nodup)
      · intro cv hcv; fin_cases hcv <;> rfl
    · cases tpk? with
      | none => exact Except.noConfusion hkw
      | some tpk =>
      cases tct? with
      | none => exact Except.noConfusion hkw
      | some tct =>
      injection hkw with h
      refine ⟨_, h.symm, ?_, ?_, ⟨_, rfl⟩, ⟨_, rfl⟩⟩
      · exact (by decide : ([Col.actor_content_type, Col.actor_object_id, Col.verb,
          Col.public, Col.subject_object_id, Col.subject_content_type,
          Col.target_object_id, Col.target_content_type] : List Col).Nodup)
      · intro cv hcv; fin_cases hcv <;> rfl
  | targetAsSubject =>
    rcases target with - | ⟨tpk?, tct?⟩
    · exact Except.noConfusion hkw
    · cases tpk? with
      | none => exact Except.noConfusion hkw
      | some tpk =>
      cases tct? with
      | none => exact Except.noConfusion hkw
      | some tct =>
      injection hkw with h
      refine ⟨_, h.symm, ?_, ?_, ⟨_, rfl⟩, ⟨_, rfl⟩⟩
      · exact (by decide : ([Col.actor_content_type, Col.actor_object_id, Col.verb,
          Col.public, Col.subject_object_id, Col.subject_content_type,
          Col.target_object_id, Col.target_content_type] : List Col).Nodup)
      · intro cv hcv; fin_cases hcv <;> rfl
  | other o =>
    rcases o with ⟨opk?, oct?⟩
    cases opk? with
    | none => exact Except.noConfusion hkw
    | some opk =>
    cases oct? with
    | none => exact Except.noConfusion hkw
    | some oct =>
    rcases target with - | ⟨tpk?, tct?⟩
    · injection hkw with h
      refine ⟨_, h.symm, ?_, ?_, ⟨_, rfl⟩, ⟨_, rfl⟩⟩
      · exact (by decide : ([Col.actor_content_type, Col.actor_object_id, Col.verb,
          Col.public, Col.subject_object_id, Col.subject_content_type] : List Col).Nodup)
      · intro cv hcv; fin_cases hcv <;> rfl
    · cases tpk? with
      | none => exact Except.noConfusion hkw
      | some tpk =>
      cases tct? with
      | none => exact Except.noConfusion hkw
      | some tct =>
      injection hkw with h
      refine ⟨_, h.symm, ?_, ?_, ⟨_, rfl⟩, ⟨_, rfl⟩⟩
      · exact (by decide : ([Col.actor_content_type, Col.actor_object_id, Col.verb,
          Col.public, Col.subject_object_id, Col.subject_content_type,
          Col.target_object_id, Col.target_content_type] : List Col).Nodup)
      · intro cv hcv; fin_cases hcv <;> rfl

/-- A freshly created `Action` row satisfies every well-shaped keyword it was
created from. -/
theorem colVal_mkAction_of_dget (kw : List (Col × Val)) (now : Nat)
    (c : Col) (v : Val) (hv : valTyped c v = true) (h : dget c kw = some v) :
    colVal (mkAction kw now) c = v := by
  cases c <;> cases v <;> simp [valTyped] at hv <;>
    simp [colVal, mkAction, getNatCol, getOptNatCol, getStrCol, getOptStrCol,
      getBoolCol, h]

theorem kwMatches_mkAction (kw : List (Col × Val)) (now : Nat)
    (hnd : KeysNodup kw) (ht : ∀ cv ∈ kw, valTyped cv.1 cv.2 = true) :
    kwMatches kw (mkAction kw now) := by
  intro cv hcv
  exact colVal_mkAction_of_dget kw now cv.1 cv.2 (ht cv hcv)
    (mem_dget cv.1 cv.2 kw hnd (by rwa [Prod.mk.eta]))

theorem action_handler_via_kw (db : List ActionRec) (actor : PyObj)
    (verb : String) (target : Option PyObj) (pub : Bool) (subject : SubjectArg)
    (kwargs : List (Col × Val)) (kw : List (Col × Val)) (now : Nat)
    (hkw : buildKW actor verb target pub subject kwargs = Except.ok kw) :
    action_handler db actor verb target pub subject kwargs now =
      (get_or_create db kw now).bind (fun p => Except.ok p.1) := by
  unfold action_handler
  rw [hkw]
  rfl

theorem get_or_create_create (db : List ActionRec) (kw : List (Col × Val))
    (now : Nat) (h : db.filter (fun r => kwMatches kw r) = []) :
    get_or_create db kw now =
      Except.ok (db ++ [mkAction kw now], mkAction kw now) := by
  simp [get_or_create, h]

theorem get_or_create_found (db : List ActionRec) (kw : List (Col × Val))
    (now : Nat) (r : ActionRec) (h : db.filter (fun x => kwMatches kw x) = [r]) :
    get_or_create db kw now = Except.ok (db, r) := by
  simp [get_or_create, h]

/-- Successful dispatch either reused an existing row (store unchanged) or
appended exactly the freshly created row. -/
theorem action_handler_cases (db : List ActionRec) (actor : PyObj)
    (verb : String) (target : Option PyObj) (pub : Bool) (subject : SubjectArg)
    (kwargs : List (Col × Val)) (now : Nat) (db' : List ActionRec)
    (h : action_handler db actor verb target pub subject kwargs now = Except.ok db') :
    ∃ kw, buildKW actor verb target pub subject kwargs = Except.ok kw ∧
      (db' = db ∨ db' = db ++ [mkAction kw now]) := by
  cases hb : buildKW actor verb target pub subject kwargs with
  | error e =>
      unfold action_handler at h
      rw [hb] at h
      exact Except.noConfusion h
  | ok kw =>
      refine ⟨kw, rfl, ?_⟩
      rw [action_handler_via_kw _ _ _ _ _ _ _ _ _ hb] at h
      unfold get_or_create at h
      cases hf : db.filter (fun r => kwMatches kw r) with
      | nil =>
          rw [hf] at h
          exact .inr (Except.ok.inj h).symm
      | cons r rest =>
          cases rest with
          | nil =>
              rw [hf] at h
              exact .inl (Except.ok.inj h).symm
          | cons r2 rest2 =>
              rw [hf] at h
              exact Except.noConfusion h

theorem optNat_of_colVal (o : Option Nat) (n : Nat)
    (h : (o.map Val.nat).getD Val.null = Val.nat n) : o = some n := by
  cases o <;> simp_all

/-- C3: dispatching the same (actor, verb, subject, target, visibility,
extra-fields) tuple twice leaves exactly one persisted row matching those
field values, and never removes or overwrites an existing row
(`get_or_create` reuses the match found on the second call). -/
theorem action_handler_idempotent
    (db0 db1 db2 : List ActionRec) (actor : PyObj) (verb : String)
    (target : Option PyObj) (pub : Bool) (subject : SubjectArg)
    (kwargs kw : List (Col × Val)) (t1 t2 : Nat)
    (hwt : ∀ cv ∈ kwargs, valTyped cv.1 cv.2 = true)
    (hkw : buildKW actor verb target pub subject kwargs = Except.ok kw)
    (h0 : countMatching db0 kw = 0)
    (h1 : action_handler db0 actor verb target pub subject kwargs t1 = Except.ok db1)
    (h2 : action_handler db1 actor verb target pub subject kwargs t2 = Except.ok db2) :
    countMatching db2 kw = 1 ∧ ∀ r ∈ db0, r ∈ db2 := by
  obtain ⟨base, hb, hnd, hty, -, -⟩ := buildKW_spec _ _ _ _ _ _ _ hkw
  have hndkw : KeysNodup kw := by rw [hb]; exact keysNodup_foldl_dset _ _ hnd
  have htykw : ∀ cv ∈ kw, valTyped cv.1 cv.2 = true := by
    rw [hb]; exact all_foldl_dset _ _ _ hty hwt
  have hfil0 : db0.filter (fun r => kwMatches kw r) = [] := by
    rw [← List.length_eq_zero, ← List.countP_eq_length_filter]
    exact h0
  rw [action_handler_via_kw _ _ _ _ _ _ _ _ _ hkw,
    get_or_create_create _ _ _ hfil0] at h1
  have hdb1 : db1 = db0 ++ [mkAction kw t1] := (Except.ok.inj h1).symm
  have hm : kwMatches kw (mkAction kw t1) := kwMatches_mkAction kw t1 hndkw htykw
  have hfil1 : db1.filter (fun r => kwMatches kw r) = [mkAction kw t1] := by
    rw [hdb1, List.filter_append, hfil0, List.nil_append]
    simp [List.filter, hm]
  rw [action_handler_via_kw _ _ _ _ _ _ _ _ _ hkw,
    get_or_create_found _ _ _ _ hfil1] at h2
  have hdb2 : db2 = db1 := (Except.ok.inj h2).symm
  constructor
  · rw [hdb2, hdb1]
    unfold countMatching at h0 ⊢
    rw [List.countP_append, h0]
    simp [List.countP_cons, hm]
  · intro r hr
    rw [hdb2, hdb1]
    exact List.mem_append_left _ hr

theorem action_handler_idempotent_witness :
    countMatching [⟨2, 1, "v", none, some 2, some 1, none, none, true, 5⟩]
        [(Col.actor_content_type, Val.nat 2), (Col.actor_object_id, Val.nat 1),
         (Col.verb, Val.str "v"), (Col.public, Val.bool true),
         (Col.subject_object_id, Val.nat 1), (Col.subject_content_type, Val.nat 2)] = 1 ∧
    ∀ r ∈ ([] : List ActionRec),
      r ∈ [(⟨2, 1, "v", none, some 2, some 1, none, none, true, 5⟩ : ActionRec)] :=
  action_handler_idempotent []
    [⟨2, 1, "v", none, some 2, some 1, none, none, true, 5⟩]
    [⟨2, 1, "v", none, some 2, some 1, none, none, true, 5⟩]
    ⟨some 1, some 2⟩ "v" none true SubjectArg.actorDefault []
    [(Col.actor_content_type, Val.nat 2), (Col.actor_object_id, Val.nat 1),
     (Col.verb, Val.str "v"), (Col.public, Val.bool true),
     (Col.subject_object_id, Val.nat 1), (Col.subject_content_type, Val.nat 2)]
    5 9 (by intro cv h; cases h) (by rfl) (by rfl) (by rfl) (by rfl)

/-- C7 (amended): dispatch with an explicit subject lacking a primary key,
or whose type has no content type, raises immediately (before
`get_or_create`, so nothing is persisted) — but only the
unrecognized-content-type branch raises its descriptive message; in the
missing-pk branch the malformed `%`-format (one placeholder, three
arguments) raises the interpreter's formatting `TypeError` before the
descriptive `Exception` is built.  With no subject specified, the subject
defaults to the actor and dispatch succeeds, persisting/reusing a row whose
subject columns are the actor's. -/
theorem action_handler_subject_validation
    (db : List ActionRec) (actor : PyObj) (verb : String)
    (target : Option PyObj) (pub : Bool) (kwargs : List (Col × Val))
    (now : Nat) (apk act : Nat)
    (hapk : actor.pk = some apk) (hact : actor.ct = some act) :
    (∀ o : PyObj, o.pk = none →
      action_handler db actor verb target pub (SubjectArg.other o) kwargs now =
        Except.error
          "TypeError: not all arguments converted during string formatting") ∧
    (∀ o : PyObj, ∀ n, o.pk = some n → o.ct = none →
      action_handler db actor verb target pub (SubjectArg.other o) kwargs now =
        Except.error "Invalid model/object: was not a recognized content type") ∧
    (∀ kw, buildKW actor verb none pub SubjectArg.actorDefault [] = Except.ok kw →
      countMatching db kw ≤ 1 →
      ∃ db', action_handler db actor verb none pub SubjectArg.actorDefault [] now =
          Except.ok db' ∧
        ∃ r ∈ db', r.actor_content_type = act ∧ r.actor_object_id = apk ∧
          r.verb = verb ∧ r.subject_content_type = some act ∧
          r.subject_object_id = some apk) := by
  rcases actor with ⟨apk?, act?⟩
  obtain rfl : apk? = some apk := hapk
  obtain rfl : act? = some act := hact
  refine ⟨?_, ?_, ?_⟩
  · intro o ho
    rcases o with ⟨opk?, oct?⟩
    obtain rfl : opk? = none := ho
    rfl
  · intro o n hn hc
    rcases o with ⟨opk?, oct?⟩
    obtain rfl : opk? = some n := hn
    obtain rfl : oct? = none := hc
    rfl
  · intro kw hbk hcnt
    have hkweq : ([(Col.actor_content_type, Val.nat act),
        (Col.actor_object_id, Val.nat apk), (Col.verb, Val.str verb),
        (Col.public, Val.bool pub), (Col.subject_object_id, Val.nat apk),
        (Col.subject_content_type, Val.nat act)] : List (Col × Val)) = kw :=
      Except.ok.inj hbk
    cases hf : db.filter (fun r => kwMatches kw r) with
    | nil =>
        refine ⟨db ++ [mkAction kw now], ?_, mkAction kw now,
          List.mem_append_right _ (List.mem_cons_self _ _), ?_, ?_, ?_, ?_, ?_⟩
        · rw [action_handler_via_kw _ _ _ _ _ _ _ _ _ hbk,
            get_or_create_create _ _ _ hf]
          rfl
        · rw [← hkweq]; rfl
        · rw [← hkweq]; rfl
        · rw [← hkweq]; rfl
        · rw [← hkweq]; rfl
        · rw [← hkweq]; rfl
    | cons r rest =>
        cases rest with
        | nil =>
            have hrf : r ∈ db.filter (fun x => kwMatches kw x) := by
              rw [hf]; exact List.mem_cons_self _ _
            have hmem := List.mem_filter.mp hrf
            have hmatch : kwMatches kw r := of_decide_eq_true hmem.2
            refine ⟨db, ?_, r, hmem.1, ?_, ?_, ?_, ?_, ?_⟩
            · rw [action_handler_via_kw _ _ _ _ _ _ _ _ _ hbk,
                get_or_create_found _ _ _ _ hf]
              rfl
            · exact Val.nat.inj (hmatch (Col.actor_content_type, Val.nat act)
                (by rw [← hkweq]; simp))
            · exact Val.nat.inj (hmatch (Col.actor_object_id, Val.nat apk)
                (by rw [← hkweq]; simp))
            · exact Val.str.inj (hmatch (Col.verb, Val.str verb)
                (by rw [← hkweq]; simp))
            · exact optNat_of_colVal _ _ (hmatch (Col.subject_content_type, Val.nat act)
                (by rw [← hkweq]; simp))
            · exact optNat_of_colVal _ _ (hmatch (Col.subject_object_id, Val.nat apk)
                (by rw [← hkweq]; simp))
        | cons r2 rest2 =>
            exfalso
            have hlen : countMatching db kw =
                (db.filter (fun r => kwMatches kw r)).length := by
              unfold countMatching
              rw [List.countP_eq_length_filter]
            rw [hlen, hf] at hcnt
            simp at hcnt

theorem action_handler_subject_validation_witness :
    (⟨some 1, some 2⟩ : PyObj).pk = some 1 ∧
    (⟨some 1, some 2⟩ : PyObj).ct = some 2 ∧
    ((∀ o : PyObj, o.pk = none →
      action_handler [] ⟨some 1, some 2⟩ "v" none true (SubjectArg.other o) [] 0 =
        Except.error
          "TypeError: not all arguments converted during string formatting") ∧
    (∀ o : PyObj, ∀ n, o.pk = some n → o.ct = none →
      action_handler [] ⟨some 1, some 2⟩ "v" none true (SubjectArg.other o) [] 0 =
        Except.error "Invalid model/object: was not a recognized content type") ∧
    (∀ kw, buildKW ⟨some 1, some 2⟩ "v" none true SubjectArg.actorDefault [] =
        Except.ok kw →
      countMatching [] kw ≤ 1 →
      ∃ db', action_handler [] ⟨some 1, some 2⟩ "v" none true
          SubjectArg.actorDefault [] 0 = Except.ok db' ∧
        ∃ r ∈ db', r.actor_content_type = 2 ∧ r.actor_object_id = 1 ∧
          r.verb = "v" ∧ r.subject_content_type = some 2 ∧
          r.subject_object_id = some 1)) :=
  ⟨rfl, rfl,
    action_handler_subject_validation [] ⟨some 1, some 2⟩ "v" none true [] 0 1 2 rfl rfl⟩

/-- C7 counterexample to the original claim: dispatch with an explicit
subject lacking a primary key does fail immediately, but not "with a
descriptive message".  The handler's
`"Invalid model/object: did not have a primary key: %s" % (type(subject), subject, inst)`
(models.py line 226) has one placeholder and three arguments, so the
`%`-operation raises `TypeError: not all arguments converted during string
formatting` before the descriptive `Exception` is ever constructed; the
surfaced error text describes the string formatting, not the missing
identifier. -/
theorem action_handler_no_pk_formatting_error :
    action_handler [] ⟨some 1, some 2⟩ "v" none true
        (SubjectArg.other ⟨none, some 3⟩) [] 0 =
      Except.error
        "TypeError: not all arguments converted during string formatting" :=
  rfl

/-- C10 counterexample: the extra `kwargs` are merged into the keyword dict
*after* the subject branches have run (`kw.update(kwargs)`), so a caller can
null the subject columns back out; the handler then persists an Activity
Record with no subject identifier. -/
theorem action_handler_null_subject_override :
    ∃ db', action_handler [] ⟨some 1, some 1⟩ "v" none true
        SubjectArg.actorDefault [(Col.subject_object_id, Val.null)] 0 =
      Except.ok db' ∧
      ∃ r ∈ db', r.subject_object_id = (none : Option Nat) :=
  ⟨_, rfl, _, List.mem_cons_self _ _, rfl⟩

/-- C10 (amended): provided the extra fields do not override the subject
columns with non-identifier values, every row created through the dispatch
handler has both subject reference columns populated — each of the three
subject-resolution branches assigns them before `get_or_create` runs. -/
theorem action_handler_subject_populated
    (db db' : List ActionRec) (actor : PyObj) (verb : String)
    (target : Option PyObj) (pub : Bool) (subject : SubjectArg)
    (kwargs : List (Col × Val)) (now : Nat)
    (hso : ∀ v, (Col.subject_object_id, v) ∈ kwargs → ∃ n, v = Val.nat n)
    (hsc : ∀ v, (Col.subject_content_type, v) ∈ kwargs → ∃ n, v = Val.nat n)
    (h : action_handler db actor verb target pub subject kwargs now = Except.ok db') :
    ∀ r ∈ db', r ∈ db ∨
      (r.subject_content_type.isSome ∧ r.subject_object_id.isSome) := by
  obtain ⟨kw, hbk, hdb⟩ := action_handler_cases _ _ _ _ _ _ _ _ _ h
  rcases hdb with rfl | rfl
  · exact fun r hr => .inl hr
  · intro r hr
    rcases List.mem_append.mp hr with hr | hr
    · exact .inl hr
    · right
      have hrm : r = mkAction kw now := by simpa using hr
      subst hrm
      obtain ⟨base, hb, -, -, hso0, hsc0⟩ := buildKW_spec _ _ _ _ _ _ _ hbk
      obtain ⟨n0, hn0⟩ := hsc0
      obtain ⟨m0, hm0⟩ := hso0
      obtain ⟨v1, hv1, n1, rfl⟩ := dget_foldl_dset Col.subject_content_type
        (fun v => ∃ n, v = Val.nat n) kwargs base ⟨Val.nat n0, hn0, n0, rfl⟩ hsc
      obtain ⟨v2, hv2, n2, rfl⟩ := dget_foldl_dset Col.subject_object_id
        (fun v => ∃ n, v = Val.nat n) kwargs base ⟨Val.nat m0, hm0, m0, rfl⟩ hso
      have hg1 : dget Col.subject_content_type kw = some (Val.nat n1) := by
        rw [hb]; exact hv1
      have hg2 : dget Col.subject_object_id kw = some (Val.nat n2) := by
        rw [hb]; exact hv2
      constructor
      · simp [mkAction, getOptNatCol, hg1]
      · simp [mkAction, getOptNatCol, hg2]

theorem action_handler_subject_populated_witness :
    (⟨1, 1, "v", none, some 1, some 1, none, none, true, 0⟩ : ActionRec) ∈
        ([] : List ActionRec) ∨
      ((⟨1, 1, "v", none, some 1, some 1, none, none, true, 0⟩ :
          ActionRec).subject_content_type.isSome ∧
        (⟨1, 1, "v", none, some 1, some 1, none, none, true, 0⟩ :
          ActionRec).subject_object_id.isSome) :=
  action_handler_subject_populated []
    [⟨1, 1, "v", none, some 1, some 1, none, none, true, 0⟩]
    ⟨some 1, some 1⟩ "v" none true SubjectArg.actorDefault [] 0
    (fun v hv => absurd hv (List.not_mem_nil _))
    (fun v hv => absurd hv (List.not_mem_nil _)) rfl
    _ (List.mem_singleton_self _)

/-- C8: every call to `follow(user, subject)` raises.  The signal guard
reads `settings.get('ACTIVITY_HIDE_FOLLOWING')`, but `django.conf.settings`
has no `get` method, so `AttributeError` escapes before the
`started following` action is sent and before `Follow.objects.create` runs:
no Follow row is created and no Activity Record is dispatched, for every
watcher/subject pair and every configuration. -/
theorem follow_raises_attribute_error
    (cfg : Settings) (adb : List ActionRec) (fdb : List FollowRec)
    (user subject : PyObj) (now : Nat) :
    follow cfg adb fdb user subject now =
      Except.error "AttributeError: Settings object has no attribute get" :=
  rfl

/-! ## GFK claims -/

/-- C1: in `gfk.py` the attach pass looks `data_map` up with the bare
identifier string (`key = smart_unicode(getattr(item, gfk.fk_field))`),
while `data_map` was keyed by `(ct_id, smart_unicode(o.pk))` pairs; the
membership test therefore never succeeds and no entity is ever attached in
place, even though the referenced entity exists in the store and the bulk
queries were issued.  Evaluated at a one-row, one-entity input: the returned
row still has its lazy placeholder untouched (`attached = none`) although a
direct `(discriminator, identifier)` lookup finds the entity.  (The dead
`ctype`/`gfk_pk` bindings at `gfk.py` lines 79–80 show the intended pair
key.) -/
theorem gfk_fetch_leaves_reference_unresolved :
    GFK.fetch_generic_relations {} [1] [⟨1, 7⟩] [{ name := 0 }] []
        [⟨5, [(0, { ct := some 1, fk := some 7 })]⟩] =
      Except.ok ([⟨5, [(0, { ct := some 1, fk := some 7 })]⟩], 2) ∧
    directLookup [⟨1, 7⟩] 1 7 = some ⟨1, 7⟩ ∧
    (getRef ⟨5, [(0, { ct := some 1, fk := some 7 })]⟩ 0).attached = none :=
  ⟨rfl, rfl, rfl⟩

/-- The distinct discriminators among populated references of a result set:
`K` in the batching bound. -/
def populatedCTsOfRow (fields : List FieldMeta) (row : Row) : List Nat :=
  fields.filterMap (fun g =>
    match (getRef row g.name).ct, (getRef row g.name).fk with
    | some c, some _ => some c
    | _, _ => none)

def distinctPopulatedCTs (fields : List FieldMeta) (rows : List Row) : List Nat :=
  ((rows.map (populatedCTsOfRow fields)).flatten).dedup

theorem mem_populatedCTsOfRow (fields : List FieldMeta) (row : Row) (c : Nat) :
    c ∈ populatedCTsOfRow fields row ↔
      ∃ g ∈ fields, (getRef row g.name).ct = some c ∧
        (getRef row g.name).fk ≠ none := by
  unfold populatedCTsOfRow
  rw [List.mem_filterMap]
  constructor
  · rintro ⟨g, hg, hmatch⟩
    refine ⟨g, hg, ?_⟩
    cases hct : (getRef row g.name).ct with
    | none => rw [hct] at hmatch; exact Option.noConfusion hmatch
    | some c' =>
      cases hfk : (getRef row g.name).fk with
      | none => rw [hct, hfk] at hmatch; exact Option.noConfusion hmatch
      | some f =>
        rw [hct, hfk] at hmatch
        exact ⟨by rw [Option.some.inj hmatch], by simp [hfk]⟩
  · rintro ⟨g, hg, hct, hfk⟩
    refine ⟨g, hg, ?_⟩
    rw [hct]
    cases hfk' : (getRef row g.name).fk with
    | none => exact absurd hfk' hfk
    | some f => rfl

theorem mem_distinctPopulatedCTs (fields : List FieldMeta) (rows : List Row)
    (c : Nat) : c ∈ distinctPopulatedCTs fields rows ↔
      ∃ row ∈ rows, ∃ g ∈ fields, (getRef row g.name).ct = some c ∧
        (getRef row g.name).fk ≠ none := by
  rw [distinctPopulatedCTs, List.mem_dedup, List.mem_flatten]
  constructor
  · rintro ⟨l, hl, hc⟩
    obtain ⟨row, hrow, rfl⟩ := List.mem_map.mp hl
    obtain ⟨g, hg, h⟩ := (mem_populatedCTsOfRow fields row c).mp hc
    exact ⟨row, hrow, g, hg, h⟩
  · rintro ⟨row, hrow, g, hg, h⟩
    exact ⟨_, List.mem_map_of_mem _ hrow,
      (mem_populatedCTsOfRow fields row c).mpr ⟨g, hg, h⟩⟩

namespace GFK

/-- The loop body of the first pass, per field. -/
def ctMapFieldStep (item : Row) (m : List (Nat × List (String × (Nat × Nat))))
    (gfk : FieldMeta) : List (Nat × List (String × (Nat × Nat))) :=
  match (getRef item gfk.name).ct, (getRef item gfk.name).fk with
  | some c, some f =>
      dset c (dset (toString f) (gfk.name, item.pk) ((dget c m).getD [])) m
  | _, _ => m

theorem buildCtMap_eq (fields : List FieldMeta) (rows : List Row) :
    buildCtMap fields rows =
      rows.foldl (fun m item => fields.foldl (ctMapFieldStep item) m) [] := rfl

theorem mem_keys_ctMapFieldStep (item : Row) (m : List (Nat × List (String × (Nat × Nat))))
    (gfk : FieldMeta) (c : Nat) :
    c ∈ (ctMapFieldStep item m gfk).map Prod.fst ↔
      c ∈ m.map Prod.fst ∨ ((getRef item gfk.name).ct = some c ∧
        (getRef item gfk.name).fk ≠ none) := by
  unfold ctMapFieldStep
  cases hct : (getRef item gfk.name).ct with
  | none => simp [hct]
  | some c' =>
    cases hfk : (getRef item gfk.name).fk with
    | none => simp [hfk]
    | some f =>
      simp only [mem_keys_dset, hct, hfk]
      constructor
      · rintro (rfl | h)
        · exact .inr ⟨rfl, by simp⟩
        · exact .inl h
      · rintro (h | ⟨hc, -⟩)
        · exact .inr h
        · exact .inl (Option.some.inj hc).symm

theorem mem_keys_fieldFold (item : Row) (fields : List FieldMeta)
    (m : List (Nat × List (String × (Nat × Nat)))) (c : Nat) :
    c ∈ (fields.foldl (ctMapFieldStep item) m).map Prod.fst ↔
      c ∈ m.map Prod.fst ∨ ∃ g ∈ fields, (getRef item g.name).ct = some c ∧
        (getRef item g.name).fk ≠ none := by
  induction fields generalizing m with
  | nil => simp
  | cons g rest ih =>
      rw [List.foldl_cons, ih, mem_keys_ctMapFieldStep]
      simp only [List.mem_cons]
      constructor
      · rintro ((h | h) | ⟨g', hg', h⟩)
        · exact .inl h
        · exact .inr ⟨g, .inl rfl, h⟩
        · exact .inr ⟨g', .inr hg', h⟩
      · rintro (h | ⟨g', rfl | hg', h⟩)
        · exact .inl (.inl h)
        · exact .inl (.inr h)
        · exact .inr ⟨g', hg', h⟩

theorem mem_keys_buildCtMap (fields : List FieldMeta) (rows : List Row) (c : Nat) :
    c ∈ (buildCtMap fields rows).map Prod.fst ↔
      ∃ row ∈ rows, ∃ g ∈ fields, (getRef row g.name).ct = some c ∧
        (getRef row g.name).fk ≠ none := by
  rw [buildCtMap_eq]
  suffices h : ∀ m : List (Nat × List (String × (Nat × Nat))),
      c ∈ (rows.foldl (fun m item => fields.foldl (ctMapFieldStep item) m) m).map Prod.fst ↔
      c ∈ m.map Prod.fst ∨ ∃ row ∈ rows, ∃ g ∈ fields,
        (getRef row g.name).ct = some c ∧ (getRef row g.name).fk ≠ none by
    rw [h []]
    simp
  induction rows with
  | nil => simp
  | cons row rest ih =>
      intro m
      rw [List.foldl_cons, ih, mem_keys_fieldFold]
      simp only [List.mem_cons]
      constructor
      · rintro ((h | h) | ⟨row', hrow', h⟩)
        · exact .inl h
        · exact .inr ⟨row, .inl rfl, h⟩
        · exact .inr ⟨row', .inr hrow', h⟩
      · rintro (h | ⟨row', rfl | hrow', h⟩)
        · exact .inl (.inl h)
        · exact .inl (.inr h)
        · exact .inr ⟨row', hrow', h⟩

theorem keysNodup_ctMapFieldStep (item : Row)
    (m : List (Nat × List (String × (Nat × Nat)))) (gfk : FieldMeta)
    (h : KeysNodup m) : KeysNodup (ctMapFieldStep item m gfk) := by
  unfold ctMapFieldStep
  cases hct : (getRef item gfk.name).ct with
  | none => simpa [hct] using h
  | some c =>
    cases hfk : (getRef item gfk.name).fk with
    | none => simpa [hct, hfk] using h
    | some f =>
      simp only [hct, hfk]
      exact keysNodup_dset _ _ _ h

theorem keysNodup_buildCtMap (fields : List FieldMeta) (rows : List Row) :
    KeysNodup (buildCtMap fields rows) := by
  rw [buildCtMap_eq]
  suffices h : ∀ m : List (Nat × List (String × (Nat × Nat))), KeysNodup m →
      KeysNodup (rows.foldl (fun m item => fields.foldl (ctMapFieldStep item) m) m) by
    exact h [] (by simp [KeysNodup])
  induction rows with
  | nil => exact fun m hm => hm
  | cons row rest ih =>
      intro m hm
      rw [List.foldl_cons]
      refine ih _ ?_
      clear ih
      induction fields generalizing m with
      | nil => exact hm
      | cons g rest2 ih2 =>
          rw [List.foldl_cons]
          exact ih2 _ (keysNodup_ctMapFieldStep _ _ _ hm)

theorem buildDataMap_count (ctypes : List Nat) (store : List Entity)
    (ctMap : List (Nat × List (String × (Nat × Nat))))
    (dm : List (PyKey × Entity)) (q : Nat)
    (hct : ∀ c ∈ ctMap.map Prod.fst, c ≠ 0 ∧ c ∈ ctypes) :
    ∃ dm', buildDataMap ctypes store ctMap dm q =
      Except.ok (dm', q + ctMap.length) := by
  induction ctMap generalizing dm q with
  | nil => exact ⟨dm, rfl⟩
  | cons e rest ih =>
      obtain ⟨ct_id, items_⟩ := e
      obtain ⟨hne, hin⟩ := hct ct_id (by simp)
      have hct' : ∀ c ∈ rest.map Prod.fst, c ≠ 0 ∧ c ∈ ctypes :=
        fun c hc => hct c (by simp [hc])
      obtain ⟨dm', hdm'⟩ := ih ((store.filter (fun e =>
          e.ctId = ct_id ∧ toString e.pk ∈ items_.map Prod.fst)).foldl
          (fun dm o => dset (PyKey.pair ct_id (toString o.pk)) o dm) dm)
        (q + 1) hct'
      have harith : q + 1 + rest.length = q + (rest.length + 1) := by omega
      rw [harith] at hdm'
      refine ⟨dm', ?_⟩
      unfold buildDataMap
      rw [if_pos hne, if_pos hin]
      simp only [hdm', List.length_cons]

end GFK

/-- C9: over a result set whose populated references span `K` distinct
(valid, recognised) entity types, `fetch_generic_relations` issues exactly
`K` bulk entity fetches plus the one bulk `ContentType.in_bulk`
discriminator-resolution fetch — the count depends only on the set of
distinct discriminators, not on the number of rows or of reference fields
per row. -/
theorem gfk_query_count (ctypes : List Nat) (store : List Entity)
    (fields : List FieldMeta) (rows : List Row)
    (hct : ∀ row ∈ rows, ∀ g ∈ fields, ∀ c, (getRef row g.name).ct = some c →
      (getRef row g.name).fk ≠ none → c ≠ 0 ∧ c ∈ ctypes) :
    ∃ rows', GFK.fetch_generic_relations {} ctypes store fields [] rows =
      Except.ok (rows', (distinctPopulatedCTs fields rows).length + 1) := by
  have hkeys : ∀ c ∈ (GFK.buildCtMap fields rows).map Prod.fst,
      c ≠ 0 ∧ c ∈ ctypes := by
    intro c hc
    obtain ⟨row, hrow, g, hg, h1, h2⟩ :=
      (GFK.mem_keys_buildCtMap fields rows c).mp hc
    exact hct row hrow g hg c h1 h2
  obtain ⟨dm, hdm⟩ :=
    GFK.buildDataMap_count ctypes store (GFK.buildCtMap fields rows) [] 1 hkeys
  have hK : (GFK.buildCtMap fields rows).length =
      (distinctPopulatedCTs fields rows).length :=
    calc (GFK.buildCtMap fields rows).length
        = ((GFK.buildCtMap fields rows).map Prod.fst).length :=
          (List.length_map _ _).symm
      _ = (distinctPopulatedCTs fields rows).length :=
          List.Perm.length_eq
            ((List.perm_ext_iff_of_nodup (GFK.keysNodup_buildCtMap fields rows)
              (List.nodup_dedup _)).mpr
              (fun a => (GFK.mem_keys_buildCtMap fields rows a).trans
                (mem_distinctPopulatedCTs fields rows a).symm))
  refine ⟨GFK.attachRows fields dm rows, ?_⟩
  have hred : GFK.fetch_generic_relations {} ctypes store fields [] rows =
      (GFK.buildDataMap ctypes store (GFK.buildCtMap fields rows) [] 1).bind
        (fun p => Except.ok (GFK.attachRows fields p.1 rows, p.2)) := rfl
  rw [hred, hdm]
  show Except.ok (GFK.attachRows fields dm rows,
      1 + (GFK.buildCtMap fields rows).length) = _
  rw [Nat.add_comm, hK]

theorem gfk_query_count_witness :
    ∃ rows', GFK.fetch_generic_relations {} [1, 2] [] [{ name := 0 }] []
        [⟨1, [(0, { ct := some 1, fk := some 5 })]⟩,
         ⟨2, [(0, { ct := some 2, fk := some 6 })]⟩] =
      Except.ok (rows', (distinctPopulatedCTs [{ name := 0 }]
        [⟨1, [(0, { ct := some 1, fk := some 5 })]⟩,
         ⟨2, [(0, { ct := some 2, fk := some 6 })]⟩]).length + 1) :=
  gfk_query_count [1, 2] [] [{ name := 0 }]
    [⟨1, [(0, { ct := some 1, fk := some 5 })]⟩,
     ⟨2, [(0, { ct := some 2, fk := some 6 })]⟩]
    (by
      intro row hrow g hg c hc hfk
      fin_cases hrow <;> fin_cases hg <;>
        (injection hc with h; subst h; exact ⟨by decide, by decide⟩))

/-! ## Lemmas for the `managers.py` resolver (claim about the dangling-row
exclusion policy) -/

theorem getRef_setAttached_same (item : Row) (name : Nat) (v : Option Entity) :
    getRef (setAttached item name v) name =
      { getRef item name with attached := some v } := by
  unfold getRef setAttached
  rw [dget_dset_self]
  rfl

theorem getRef_setAttached_ne (item : Row) (name n : Nat) (v : Option Entity)
    (h : n ≠ name) : getRef (setAttached item name v) n = getRef item n := by
  unfold getRef setAttached
  rw [dget_dset_ne _ _ _ _ h]

theorem setAttached_pk (item : Row) (name : Nat) (v : Option Entity) :
    (setAttached item name v).pk = item.pk := rfl

namespace Managers

theorem attachStep_fst_pk (dataMap : List ((Option Nat × Option Nat) × Entity))
    (gfk : FieldMeta) (item : Row) (miss : Missing) :
    (attachStep dataMap gfk item miss).1.pk = item.pk := by
  unfold attachStep
  by_cases hfk : (getRef item gfk.name).fk ≠ none
  · rw [if_pos hfk]
    cases dget ((getRef item gfk.name).ct, (getRef item gfk.name).fk) dataMap with
    | some e => rfl
    | none =>
        by_cases hnull : (gfk.ctNull = true ∨ gfk.ctBlank = true) ∧
            (gfk.fkNull = true ∨ gfk.fkBlank = true)
        · rw [if_pos hnull]; rfl
        · rw [if_neg hnull]
  · rw [if_neg hfk]

theorem attachStep_fst_ct_fk (dataMap : List ((Option Nat × Option Nat) × Entity))
    (gfk : FieldMeta) (item : Row) (miss : Missing) (n : Nat) :
    (getRef (attachStep dataMap gfk item miss).1 n).ct = (getRef item n).ct ∧
    (getRef (attachStep dataMap gfk item miss).1 n).fk = (getRef item n).fk := by
  unfold attachStep
  by_cases hfk : (getRef item gfk.name).fk ≠ none
  · rw [if_pos hfk]
    cases dget ((getRef item gfk.name).ct, (getRef item gfk.name).fk) dataMap with
    | some e =>
        by_cases hn : n = gfk.name
        · subst hn
          rw [show ((setAttached item gfk.name (some e), miss) : Row × Missing).1 =
            setAttached item gfk.name (some e) from rfl, getRef_setAttached_same]
          exact ⟨rfl, rfl⟩
        · rw [show ((setAttached item gfk.name (some e), miss) : Row × Missing).1 =
            setAttached item gfk.name (some e) from rfl,
            getRef_setAttached_ne _ _ _ _ hn]
          exact ⟨rfl, rfl⟩
    | none =>
        by_cases hnull : (gfk.ctNull = true ∨ gfk.ctBlank = true) ∧
            (gfk.fkNull = true ∨ gfk.fkBlank = true)
        · rw [if_pos hnull]
          by_cases hn : n = gfk.name
          · subst hn
            rw [show ((setAttached item gfk.name none, miss) : Row × Missing).1 =
              setAttached item gfk.name none from rfl, getRef_setAttached_same]
            exact ⟨rfl, rfl⟩
          · rw [show ((setAttached item gfk.name none, miss) : Row × Missing).1 =
              setAttached item gfk.name none from rfl,
              getRef_setAttached_ne _ _ _ _ hn]
            exact ⟨rfl, rfl⟩
        · rw [if_neg hnull]
          exact ⟨rfl, rfl⟩
  · rw [if_neg hfk]
    exact ⟨rfl, rfl⟩

theorem attachStep_fst_indep (dataMap : List ((Option Nat × Option Nat) × Entity))
    (gfk : FieldMeta) (item : Row) (miss miss' : Missing) :
    (attachStep dataMap gfk item miss).1 = (attachStep dataMap gfk item miss').1 := by
  unfold attachStep
  by_cases hfk : (getRef item gfk.name).fk ≠ none
  · rw [if_pos hfk, if_pos hfk]
    cases dget ((getRef item gfk.name).ct, (getRef item gfk.name).fk) dataMap with
    | some e => rfl
    | none =>
        by_cases hnull : (gfk.ctNull = true ∨ gfk.ctBlank = true) ∧
            (gfk.fkNull = true ∨ gfk.fkBlank = true)
        · rw [if_pos hnull, if_pos hnull]
        · rw [if_neg hnull, if_neg hnull]
  · rw [if_neg hfk, if_neg hfk]

/-- The row transformation of the third pass, independent of the threaded
`missing_records` state. -/
def attachItem (dataMap : List ((Option Nat × Option Nat) × Entity))
    (fields : List FieldMeta) (item : Row) : Row :=
  fields.foldl (fun it g => (attachStep dataMap g it ([] : Missing)).1) item

theorem fieldsFold_fst (fields : List FieldMeta)
    (dataMap : List ((Option Nat × Option Nat) × Entity)) (item : Row)
    (miss : Missing) :
    (fields.foldl (fun p gfk => attachStep dataMap gfk p.1 p.2) (item, miss)).1 =
      attachItem dataMap fields item := by
  unfold attachItem
  induction fields generalizing item miss with
  | nil => rfl
  | cons g rest ih =>
      rw [List.foldl_cons, List.foldl_cons]
      have hsplit : attachStep dataMap g item miss =
          ((attachStep dataMap g item miss).1, (attachStep dataMap g item miss).2) := rfl
      rw [show attachStep dataMap g (item, miss).1 (item, miss).2 =
        attachStep dataMap g item miss from rfl, hsplit, ih,
        attachStep_fst_indep dataMap g item miss []]

theorem attachPass_fst (fields : List FieldMeta)
    (dataMap : List ((Option Nat × Option Nat) × Entity)) (rows : List Row) :
    (attachPass fields dataMap rows).1 =
      rows.map (fun item => attachItem dataMap fields item) := by
  unfold attachPass
  suffices h : ∀ acc : List Row × Missing,
      (rows.foldl (fun acc item =>
        ((acc.1 ++ [(fields.foldl (fun p gfk => attachStep dataMap gfk p.1 p.2)
            (item, acc.2)).1],
          (fields.foldl (fun p gfk => attachStep dataMap gfk p.1 p.2)
            (item, acc.2)).2) : List Row × Missing)) acc).1 =
      acc.1 ++ rows.map (fun item => attachItem dataMap fields item) by
    simpa using h ([], [])
  induction rows with
  | nil => intro acc; simp
  | cons row rest ih =>
      intro acc
      rw [List.foldl_cons, ih]
      simp [fieldsFold_fst, List.append_assoc]

end Managers

theorem directLookup_props (store : List Entity) (c f : Nat) (e : Entity)
    (h : directLookup store c f = some e) :
    e ∈ store ∧ e.ctId = c ∧ e.pk = f := by
  unfold directLookup at h
  have hm := List.mem_of_find?_eq_some h
  have hp := List.find?_some h
  simp only [decide_eq_true_eq] at hp
  exact ⟨hm, hp.1, hp.2⟩

theorem directLookup_of_mem (store : List Entity) (e : Entity)
    (huniq : ∀ e' ∈ store, e'.ctId = e.ctId → e'.pk = e.pk → e' = e)
    (he : e ∈ store) : directLookup store e.ctId e.pk = some e := by
  unfold directLookup
  induction store with
  | nil => simp at he
  | cons e0 rest ih =>
      by_cases hp : e0.ctId = e.ctId ∧ e0.pk = e.pk
      · have he0 : e0 = e := huniq e0 (List.mem_cons_self _ _) hp.1 hp.2
        rw [List.find?_cons_of_pos _ (by simp [hp.1, hp.2])]
        rw [he0]
      · rw [List.find?_cons_of_neg _ (by simpa using hp)]
        have hrest : e ∈ rest := by
          rcases List.mem_cons.mp he with rfl | h
          · exact absurd ⟨rfl, rfl⟩ hp
          · exact h
        exact ih (fun e' h1 h2 h3 => huniq e' (List.mem_cons_of_mem _ h1) h2 h3) hrest

theorem directLookup_ne_none (store : List Entity) (e : Entity) (c f : Nat)
    (he : e ∈ store) (hct : e.ctId = c) (hpk : e.pk = f) :
    directLookup store c f ≠ none := by
  unfold directLookup
  intro hcontra
  have : (store.find? (fun x => x.ctId = c ∧ x.pk = f)).isSome :=
    List.find?_isSome.mpr ⟨e, he, by simp [hct, hpk]⟩
  rw [hcontra] at this
  exact Bool.noConfusion this

/-- Generic insert-fold inversion: a binding in the folded dict comes from
the initial dict or from one of the inserts. -/
theorem dget_foldl_inserts {α β γ : Type} [DecidableEq α] (ks : List γ)
    (keyf : γ → α) (valf : γ → β) (m0 : List (α × β)) (k : α) (e : β)
    (h : dget k (ks.foldl (fun m x => dset (keyf x) (valf x) m) m0) = some e) :
    dget k m0 = some e ∨ ∃ x ∈ ks, k = keyf x ∧ e = valf x := by
  induction ks generalizing m0 with
  | nil => exact .inl h
  | cons x rest ih =>
      rcases ih (dset (keyf x) (valf x) m0) h with h' | ⟨x', hx', h1, h2⟩
      · by_cases hk : k = keyf x
        · subst hk
          rw [dget_dset_self] at h'
          exact .inr ⟨x, List.mem_cons_self _ _, rfl, (Option.some.inj h').symm⟩
        · rw [dget_dset_ne _ _ _ _ hk] at h'
          exact .inl h'
      · exact .inr ⟨x', List.mem_cons_of_mem _ hx', h1, h2⟩

theorem dget_foldl_inserts_ne {α β γ : Type} [DecidableEq α] (ks : List γ)
    (keyf : γ → α) (valf : γ → β) (m0 : List (α × β)) (k : α)
    (hne : ∀ x ∈ ks, keyf x ≠ k) :
    dget k (ks.foldl (fun m x => dset (keyf x) (valf x) m) m0) = dget k m0 := by
  induction ks generalizing m0 with
  | nil => rfl
  | cons x rest ih =>
      rw [List.foldl_cons, ih _ (fun y hy => hne y (List.mem_cons_of_mem _ hy)),
        dget_dset_ne _ _ _ _ (fun hk => hne x (List.mem_cons_self _ _) hk.symm)]

theorem dget_foldl_inserts_attain {α β γ : Type} [DecidableEq α] (ks : List γ)
    (keyf : γ → α) (valf : γ → β) (m0 : List (α × β)) (k : α) (e : β)
    (hx : ∃ x ∈ ks, keyf x = k) (hval : ∀ x ∈ ks, keyf x = k → valf x = e) :
    dget k (ks.foldl (fun m x => dset (keyf x) (valf x) m) m0) = some e := by
  induction ks generalizing m0 with
  | nil => simp at hx
  | cons x rest ih =>
      rw [List.foldl_cons]
      by_cases hrest : ∃ y ∈ rest, keyf y = k
      · exact ih _ hrest (fun y hy h => hval y (List.mem_cons_of_mem _ hy) h)
      · obtain ⟨x', hx', hk⟩ := hx
        have hxx : x' = x := by
          rcases List.mem_cons.mp hx' with rfl | h
          · rfl
          · exact absurd ⟨x', h, hk⟩ hrest
        subst hxx
        rw [dget_foldl_inserts_ne rest keyf valf _ k
          (fun y hy hyk => hrest ⟨y, hy, hyk⟩)]
        rw [← hk, dget_dset_self]
        rw [hval x' (List.mem_cons_self _ _) hk]

namespace Managers

/-- The loop body of the first pass, per field (no `None` skipping). -/
def ctMapFieldStepM (item : Row)
    (m : List (Option Nat × List (Option Nat × (Nat × Nat)))) (gfk : FieldMeta) :
    List (Option Nat × List (Option Nat × (Nat × Nat))) :=
  dset (getRef item gfk.name).ct
    (dset (getRef item gfk.name).fk (gfk.name, item.pk)
      ((dget (getRef item gfk.name).ct m).getD [])) m

theorem buildCtMapM_eq (fields : List FieldMeta) (rows : List Row) :
    buildCtMap fields rows =
      rows.foldl (fun m item => fields.foldl (ctMapFieldStepM item) m) [] := rfl

/-- A `(discriminator, identifier)` pair some row carries is recorded in the
first-pass map: the discriminator has an entry whose inner dict has the
identifier as key. -/
def recordedPair (m : List (Option Nat × List (Option Nat × (Nat × Nat))))
    (ct fk : Option Nat) : Prop :=
  ∃ items_, dget ct m = some items_ ∧ fk ∈ items_.map Prod.fst

theorem recordedPair_step (item : Row)
    (m : List (Option Nat × List (Option Nat × (Nat × Nat)))) (gfk : FieldMeta)
    (ct fk : Option Nat) (h : recordedPair m ct fk) :
    recordedPair (ctMapFieldStepM item m gfk) ct fk := by
  obtain ⟨items_, hdg, hfkm⟩ := h
  unfold ctMapFieldStepM
  by_cases hc : ct = (getRef item gfk.name).ct
  · subst hc
    refine ⟨_, dget_dset_self _ _ _, ?_⟩
    rw [hdg]
    rw [mem_keys_dset]
    exact .inr hfkm
  · exact ⟨items_, by rw [dget_dset_ne _ _ _ _ hc]; exact hdg, hfkm⟩

theorem recordedPair_attains (item : Row)
    (m : List (Option Nat × List (Option Nat × (Nat × Nat)))) (gfk : FieldMeta) :
    recordedPair (ctMapFieldStepM item m gfk)
      (getRef item gfk.name).ct (getRef item gfk.name).fk := by
  refine ⟨_, dget_dset_self _ _ _, ?_⟩
  rw [mem_keys_dset]
  exact .inl rfl

theorem recordedPair_fieldsFold (item : Row) (fields : List FieldMeta)
    (m : List (Option Nat × List (Option Nat × (Nat × Nat))))
    (ct fk : Option Nat) (h : recordedPair m ct fk) :
    recordedPair (fields.foldl (ctMapFieldStepM item) m) ct fk := by
  induction fields generalizing m with
  | nil => exact h
  | cons g rest ih => exact ih _ (recordedPair_step _ _ _ _ _ h)

theorem fieldsFold_attains_recorded (item : Row) (g : FieldMeta) :
    ∀ fields : List FieldMeta, g ∈ fields →
    ∀ m : List (Option Nat × List (Option Nat × (Nat × Nat))),
    recordedPair (fields.foldl (ctMapFieldStepM item) m)
      (getRef item g.name).ct (getRef item g.name).fk := by
  intro fields
  induction fields with
  | nil => intro hg; simp at hg
  | cons g' rest ih =>
      intro hg m
      rw [List.foldl_cons]
      rcases List.mem_cons.mp hg with rfl | hg'
      · exact recordedPair_fieldsFold _ rest _ _ _ (recordedPair_attains _ _ _)
      · exact ih hg' _

theorem recordedPair_rowsFold (fields : List FieldMeta) (rows : List Row)
    (m : List (Option Nat × List (Option Nat × (Nat × Nat))))
    (ct fk : Option Nat) (h : recordedPair m ct fk) :
    recordedPair (rows.foldl (fun m item => fields.foldl (ctMapFieldStepM item) m) m) ct fk := by
  induction rows generalizing m with
  | nil => exact h
  | cons row rest ih => exact ih _ (recordedPair_fieldsFold _ _ _ _ _ h)

theorem buildCtMap_recorded (fields : List FieldMeta) (rows : List Row)
    (row : Row) (g : FieldMeta) (hrow : row ∈ rows) (hg : g ∈ fields) :
    recordedPair (buildCtMap fields rows)
      (getRef row g.name).ct (getRef row g.name).fk := by
  rw [buildCtMapM_eq]
  suffices hGen : ∀ rs : List Row, row ∈ rs →
      ∀ m : List (Option Nat × List (Option Nat × (Nat × Nat))), recordedPair
        (rs.foldl (fun m item => fields.foldl (ctMapFieldStepM item) m) m)
        (getRef row g.name).ct (getRef row g.name).fk from hGen rows hrow []
  intro rs
  induction rs with
  | nil => intro h; simp at h
  | cons r rest ih =>
      intro h m
      rw [List.foldl_cons]
      rcases List.mem_cons.mp h with rfl | h'
      · exact recordedPair_rowsFold _ rest _ _ _
          (fieldsFold_attains_recorded _ _ _ hg _)
      · exact ih h' _

theorem keys_ctMapFieldStepM_sub (item : Row)
    (m : List (Option Nat × List (Option Nat × (Nat × Nat)))) (gfk : FieldMeta)
    (k : Option Nat) (hk : k ∈ (ctMapFieldStepM item m gfk).map Prod.fst) :
    k = (getRef item gfk.name).ct ∨ k ∈ m.map Prod.fst := by
  unfold ctMapFieldStepM at hk
  rw [mem_keys_dset] at hk
  exact hk

theorem keys_buildCtMap_sub (fields : List FieldMeta) (rows : List Row)
    (k : Option Nat) (hk : k ∈ (buildCtMap fields rows).map Prod.fst) :
    ∃ row ∈ rows, ∃ g ∈ fields, (getRef row g.name).ct = k := by
  rw [buildCtMapM_eq] at hk
  suffices hGen : ∀ (rs : List Row)
      (m : List (Option Nat × List (Option Nat × (Nat × Nat)))),
      k ∈ (rs.foldl (fun m item => fields.foldl (ctMapFieldStepM item) m) m).map Prod.fst →
      k ∈ m.map Prod.fst ∨ ∃ row ∈ rs, ∃ g ∈ fields, (getRef row g.name).ct = k by
    rcases hGen rows [] hk with h | h
    · simp at h
    · exact h
  intro rs
  induction rs with
  | nil => exact fun m h => .inl h
  | cons r rest ih =>
      intro m h
      rw [List.foldl_cons] at h
      have hfield : ∀ (fs : List FieldMeta)
          (m0 : List (Option Nat × List (Option Nat × (Nat × Nat)))),
          k ∈ (fs.foldl (ctMapFieldStepM r) m0).map Prod.fst →
          k ∈ m0.map Prod.fst ∨ ∃ g ∈ fs, (getRef r g.name).ct = k := by
        intro fs
        induction fs with
        | nil => exact fun m0 h0 => .inl h0
        | cons g rest2 ih2 =>
            intro m0 h0
            rw [List.foldl_cons] at h0
            rcases ih2 _ h0 with h1 | ⟨g', hg', h1⟩
            · rcases keys_ctMapFieldStepM_sub _ _ _ _ h1 with h2 | h2
              · exact .inr ⟨g, List.mem_cons_self _ _, h2.symm⟩
              · exact .inl h2
            · exact .inr ⟨g', List.mem_cons_of_mem _ hg', h1⟩
      rcases ih _ h with h1 | ⟨row', hrow', hrest⟩
      · rcases hfield fields m h1 with h2 | ⟨g, hg, h2⟩
        · exact .inl h2
        · exact .inr ⟨r, List.mem_cons_self _ _, g, hg, h2⟩
      · exact .inr ⟨row', List.mem_cons_of_mem _ hrow', hrest⟩

theorem keysNodup_buildCtMapM (fields : List FieldMeta) (rows : List Row) :
    KeysNodup (buildCtMap fields rows) := by
  rw [buildCtMapM_eq]
  suffices hGen : ∀ (rs : List Row)
      (m : List (Option Nat × List (Option Nat × (Nat × Nat)))), KeysNodup m →
      KeysNodup (rs.foldl (fun m item => fields.foldl (ctMapFieldStepM item) m) m) from
    hGen rows [] (by simp [KeysNodup])
  intro rs
  induction rs with
  | nil => exact fun m hm => hm
  | cons r rest ih =>
      intro m hm
      rw [List.foldl_cons]
      refine ih _ ?_
      clear ih
      induction fields generalizing m with
      | nil => exact hm
      | cons g rest2 ih2 =>
          rw [List.foldl_cons]
          exact ih2 _ (keysNodup_dset _ _ _ hm)

theorem buildDataMap_cons_some (ctypes : List Nat) (store : List Entity)
    (c : Nat) (items_ : List (Option Nat × (Nat × Nat)))
    (rest : List (Option Nat × List (Option Nat × (Nat × Nat))))
    (dm : List ((Option Nat × Option Nat) × Entity)) :
    buildDataMap ctypes store ((some c, items_) :: rest) dm =
      if c ≠ 0 then
        (if c ∈ ctypes then
          buildDataMap ctypes store rest
            ((store.filter (fun e =>
              e.ctId = c ∧ some e.pk ∈ items_.map Prod.fst)).foldl
              (fun dm o => dset ((some c : Option Nat), some o.pk) o dm) dm)
        else Except.error "ContentType matching query does not exist")
      else buildDataMap ctypes store rest dm := rfl

theorem buildDataMap_cons_none (ctypes : List Nat) (store : List Entity)
    (items_ : List (Option Nat × (Nat × Nat)))
    (rest : List (Option Nat × List (Option Nat × (Nat × Nat))))
    (dm : List ((Option Nat × Option Nat) × Entity)) :
    buildDataMap ctypes store ((none, items_) :: rest) dm =
      buildDataMap ctypes store rest dm := rfl

theorem buildDataMapM_ok (ctypes : List Nat) (store : List Entity)
    (ctMap : List (Option Nat × List (Option Nat × (Nat × Nat))))
    (dm0 : List ((Option Nat × Option Nat) × Entity))
    (hkeys : ∀ k ∈ ctMap.map Prod.fst, ∀ c : Nat, k = some c → c ≠ 0 → c ∈ ctypes) :
    ∃ dm, buildDataMap ctypes store ctMap dm0 = Except.ok dm := by
  induction ctMap generalizing dm0 with
  | nil => exact ⟨dm0, rfl⟩
  | cons e rest ih =>
      obtain ⟨k, items_⟩ := e
      have hkeys' : ∀ k' ∈ rest.map Prod.fst, ∀ c : Nat, k' = some c → c ≠ 0 → c ∈ ctypes :=
        fun k' hk' => hkeys k' (by simp [hk'])
      cases k with
      | none =>
          obtain ⟨dm, hdm⟩ := ih dm0 hkeys'
          exact ⟨dm, (buildDataMap_cons_none _ _ _ _ _).trans hdm⟩
      | some c =>
          by_cases hc0 : c = 0
          · obtain ⟨dm, hdm⟩ := ih dm0 hkeys'
            refine ⟨dm, ?_⟩
            rw [buildDataMap_cons_some, if_neg (by simp [hc0])]
            exact hdm
          · have hcin : c ∈ ctypes := hkeys (some c) (by simp) c rfl hc0
            obtain ⟨dm, hdm⟩ := ih ((store.filter (fun e =>
              e.ctId = c ∧ some e.pk ∈ items_.map Prod.fst)).foldl
              (fun dm o => dset ((some c : Option Nat), some o.pk) o dm) dm0) hkeys'
            refine ⟨dm, ?_⟩
            rw [buildDataMap_cons_some, if_pos hc0, if_pos hcin]
            exact hdm

theorem buildDataMapM_sound (ctypes : List Nat) (store : List Entity)
    (ctMap : List (Option Nat × List (Option Nat × (Nat × Nat))))
    (dm0 dm : List ((Option Nat × Option Nat) × Entity))
    (h : buildDataMap ctypes store ctMap dm0 = Except.ok dm)
    (key : Option Nat × Option Nat) (e : Entity) (hget : dget key dm = some e) :
    dget key dm0 = some e ∨
      (e ∈ store ∧ key = (some e.ctId, some e.pk)) := by
  induction ctMap generalizing dm0 with
  | nil => exact .inl ((Except.ok.inj h) ▸ hget)
  | cons ent rest ih =>
      obtain ⟨k, items_⟩ := ent
      cases k with
      | none =>
          rw [buildDataMap_cons_none] at h
          exact ih dm0 h
      | some c =>
          rw [buildDataMap_cons_some] at h
          by_cases hc0 : c = 0
          · rw [if_neg (by simp [hc0])] at h
            exact ih dm0 h
          · rw [if_pos hc0] at h
            by_cases hcin : c ∈ ctypes
            · rw [if_pos hcin] at h
              rcases ih _ h with h' | h'
              · rcases dget_foldl_inserts _ _ _ _ _ _ h' with h'' | ⟨o, ho, h1, h2⟩
                · exact .inl h''
                · have homem := List.mem_filter.mp ho
                  have hprops := of_decide_eq_true homem.2
                  subst h2
                  exact .inr ⟨homem.1, by rw [h1, hprops.1]⟩
              · exact .inr h'
            · rw [if_neg hcin] at h
              exact Except.noConfusion h

theorem buildDataMapM_preserve (ctypes : List Nat) (store : List Entity)
    (key : Option Nat × Option Nat) (e : Entity) :
    ∀ ctMap : List (Option Nat × List (Option Nat × (Nat × Nat))),
    key.1 ∉ ctMap.map Prod.fst →
    ∀ dm0 dm : List ((Option Nat × Option Nat) × Entity),
    buildDataMap ctypes store ctMap dm0 = Except.ok dm →
    dget key dm0 = some e → dget key dm = some e := by
  intro ctMap
  induction ctMap with
  | nil =>
      intro hk dm0 dm h hget
      exact (Except.ok.inj h) ▸ hget
  | cons ent rest ih =>
      intro hk dm0 dm h hget
      obtain ⟨k, items_⟩ := ent
      have hk' : key.1 ∉ rest.map Prod.fst := fun hmem => hk (by simp [hmem])
      have hkne : key.1 ≠ k := fun heq => hk (by simp [heq])
      cases k with
      | none =>
          rw [buildDataMap_cons_none] at h
          exact ih hk' dm0 dm h hget
      | some c =>
          rw [buildDataMap_cons_some] at h
          by_cases hc0 : c = 0
          · rw [if_neg (by simp [hc0])] at h
            exact ih hk' dm0 dm h hget
          · rw [if_pos hc0] at h
            by_cases hcin : c ∈ ctypes
            · rw [if_pos hcin] at h
              refine ih hk' _ dm h ?_
              rw [dget_foldl_inserts_ne]
              · exact hget
              · intro o ho heq
                exact hkne (by rw [← heq])
            · rw [if_neg hcin] at h
              exact Except.noConfusion h

theorem buildDataMapM_complete (ctypes : List Nat) (store : List Entity)
    (c : Nat) (hc0 : c ≠ 0) (e : Entity) (he : e ∈ store) (hect : e.ctId = c)
    (huniq : ∀ e' ∈ store, e'.ctId = e.ctId → e'.pk = e.pk → e' = e) :
    ∀ ctMap : List (Option Nat × List (Option Nat × (Nat × Nat))),
    KeysNodup ctMap →
    ∀ items_ : List (Option Nat × (Nat × Nat)),
    dget (some c) ctMap = some items_ →
    (some e.pk : Option Nat) ∈ items_.map Prod.fst →
    ∀ dm0 dm : List ((Option Nat × Option Nat) × Entity),
    buildDataMap ctypes store ctMap dm0 = Except.ok dm →
    dget ((some c : Option Nat), some e.pk) dm = some e := by
  intro ctMap
  induction ctMap with
  | nil =>
      intro hnd items_ hentry
      simp [dget] at hentry
  | cons ent rest ih =>
      intro hnd items_ hentry hpk dm0 dm h
      obtain ⟨k, items0⟩ := ent
      have hknotin : k ∉ rest.map Prod.fst := (List.nodup_cons.mp hnd).1
      have hnd' : KeysNodup rest := (List.nodup_cons.mp hnd).2
      by_cases hkc : k = some c
      · subst hkc
        have hitems : items0 = items_ := by
          have hthis := hentry
          rw [show dget (some c) (((some c : Option Nat), items0) :: rest) =
            some items0 from by simp [dget]] at hthis
          exact Option.some.inj hthis
        subst hitems
        rw [buildDataMap_cons_some, if_pos hc0] at h
        by_cases hcin : c ∈ ctypes
        · rw [if_pos hcin] at h
          refine buildDataMapM_preserve ctypes store
            ((some c : Option Nat), some e.pk) e rest (by simpa using hknotin)
            _ dm h ?_
          refine dget_foldl_inserts_attain _ _ _ _ _ _ ⟨e, ?_, ?_⟩ ?_
          · exact List.mem_filter.mpr ⟨he, by simp [hect, hpk]⟩
          · rfl
          · intro o ho heq
            have homem := List.mem_filter.mp ho
            have hprops := of_decide_eq_true homem.2
            have hpkeq : o.pk = e.pk := by
              have hsnd := congrArg Prod.snd heq
              simpa using hsnd
            exact huniq o homem.1 (by rw [hprops.1, ← hect]) hpkeq
        · rw [if_neg hcin] at h
          exact Except.noConfusion h
      · have hentry' : dget (some c) rest = some items_ := by
          rw [show dget (some c) ((k, items0) :: rest) =
            if k = some c then some items0 else dget (some c) rest from rfl,
            if_neg hkc] at hentry
          exact hentry
        cases k with
        | none =>
            rw [buildDataMap_cons_none] at h
            exact ih hnd' items_ hentry' hpk dm0 dm h
        | some c1 =>
            rw [buildDataMap_cons_some] at h
            by_cases hc10 : c1 = 0
            · rw [if_neg (by simp [hc10])] at h
              exact ih hnd' items_ hentry' hpk dm0 dm h
            · rw [if_pos hc10] at h
              by_cases hc1in : c1 ∈ ctypes
              · rw [if_pos hc1in] at h
                exact ih hnd' items_ hentry' hpk _ dm h
              · rw [if_neg hc1in] at h
                exact Except.noConfusion h

theorem attachStep_eq_hit (dataMap : List ((Option Nat × Option Nat) × Entity))
    (gfk : FieldMeta) (item : Row) (miss : Missing) (e : Entity)
    (hfk : (getRef item gfk.name).fk ≠ none)
    (hdg : dget ((getRef item gfk.name).ct, (getRef item gfk.name).fk) dataMap = some e) :
    attachStep dataMap gfk item miss = (setAttached item gfk.name (some e), miss) := by
  unfold attachStep
  rw [if_pos hfk]
  simp only [hdg]

theorem attachStep_eq_nullable (dataMap : List ((Option Nat × Option Nat) × Entity))
    (gfk : FieldMeta) (item : Row) (miss : Missing)
    (hfk : (getRef item gfk.name).fk ≠ none)
    (hdg : dget ((getRef item gfk.name).ct, (getRef item gfk.name).fk) dataMap = none)
    (hnull : (gfk.ctNull = true ∨ gfk.ctBlank = true) ∧
      (gfk.fkNull = true ∨ gfk.fkBlank = true)) :
    attachStep dataMap gfk item miss = (setAttached item gfk.name none, miss) := by
  unfold attachStep
  rw [if_pos hfk]
  simp only [hdg]
  rw [if_pos hnull]

theorem attachStep_eq_miss (dataMap : List ((Option Nat × Option Nat) × Entity))
    (gfk : FieldMeta) (item : Row) (miss : Missing)
    (hfk : (getRef item gfk.name).fk ≠ none)
    (hdg : dget ((getRef item gfk.name).ct, (getRef item gfk.name).fk) dataMap = none)
    (hnn : ¬((gfk.ctNull = true ∨ gfk.ctBlank = true) ∧
      (gfk.fkNull = true ∨ gfk.fkBlank = true))) :
    attachStep dataMap gfk item miss =
      (item, dset gfk.name
        (dset (getRef item gfk.name).ct
          (((dget (getRef item gfk.name).ct
              ((dget gfk.name miss).getD [])).getD []) ++
            [(getRef item gfk.name).fk])
          ((dget gfk.name miss).getD []))
        miss) := by
  unfold attachStep
  rw [if_pos hfk]
  simp only [hdg]
  rw [if_neg hnn]

theorem attachStep_eq_nofk (dataMap : List ((Option Nat × Option Nat) × Entity))
    (gfk : FieldMeta) (item : Row) (miss : Missing)
    (hfk : ¬(getRef item gfk.name).fk ≠ none) :
    attachStep dataMap gfk item miss = (item, miss) := by
  unfold attachStep
  rw [if_neg hfk]

/-- A `(field, discriminator, identifier)` triple is recorded in
`missing_records`. -/
def recordedIn (miss : Missing) (fld : Nat) (ct fk : Option Nat) : Prop :=
  ∃ ctItems, dget fld miss = some ctItems ∧
    ∃ objs, dget ct ctItems = some objs ∧ fk ∈ objs

theorem recordedIn_attachStep (dataMap : List ((Option Nat × Option Nat) × Entity))
    (gfk : FieldMeta) (item : Row) (miss : Missing) (fld : Nat)
    (ct fk : Option Nat) (h : recordedIn miss fld ct fk) :
    recordedIn (attachStep dataMap gfk item miss).2 fld ct fk := by
  by_cases hfk : (getRef item gfk.name).fk ≠ none
  · cases hdg : dget ((getRef item gfk.name).ct, (getRef item gfk.name).fk) dataMap with
    | some e => rw [attachStep_eq_hit _ _ _ _ _ hfk hdg]; exact h
    | none =>
        by_cases hnull : (gfk.ctNull = true ∨ gfk.ctBlank = true) ∧
            (gfk.fkNull = true ∨ gfk.fkBlank = true)
        · rw [attachStep_eq_nullable _ _ _ _ hfk hdg hnull]; exact h
        · rw [attachStep_eq_miss _ _ _ _ hfk hdg hnull]
          obtain ⟨ctItems, h1, objs, h2, h3⟩ := h
          by_cases hf : fld = gfk.name
          · subst hf
            refine ⟨_, dget_dset_self _ _ _, ?_⟩
            simp only [h1, Option.getD_some]
            by_cases hct : ct = (getRef item gfk.name).ct
            · subst hct
              refine ⟨_, dget_dset_self _ _ _, ?_⟩
              simp only [h2, Option.getD_some]
              exact List.mem_append_left _ h3
            · exact ⟨objs, by rw [dget_dset_ne _ _ _ _ hct]; exact h2, h3⟩
          · exact ⟨ctItems, by rw [dget_dset_ne _ _ _ _ hf]; exact h1, objs, h2, h3⟩
  · rw [attachStep_eq_nofk _ _ _ _ hfk]; exact h

theorem attachStep_records (dataMap : List ((Option Nat × Option Nat) × Entity))
    (gfk : FieldMeta) (item : Row) (miss : Missing)
    (hfk : (getRef item gfk.name).fk ≠ none)
    (hdg : dget ((getRef item gfk.name).ct, (getRef item gfk.name).fk) dataMap = none)
    (hnn : ¬((gfk.ctNull = true ∨ gfk.ctBlank = true) ∧
      (gfk.fkNull = true ∨ gfk.fkBlank = true))) :
    recordedIn (attachStep dataMap gfk item miss).2 gfk.name
      (getRef item gfk.name).ct (getRef item gfk.name).fk := by
  rw [attachStep_eq_miss _ _ _ _ hfk hdg hnn]
  refine ⟨_, dget_dset_self _ _ _, _, dget_dset_self _ _ _, ?_⟩
  exact List.mem_append_right _ (List.mem_cons_self _ _)

/-- The per-row loop body of the third pass. -/
def rowStepM (fields : List FieldMeta)
    (dataMap : List ((Option Nat × Option Nat) × Entity))
    (acc : List Row × Missing) (item : Row) : List Row × Missing :=
  (acc.1 ++ [(fields.foldl (fun p gfk => attachStep dataMap gfk p.1 p.2)
      (item, acc.2)).1],
    (fields.foldl (fun p gfk => attachStep dataMap gfk p.1 p.2) (item, acc.2)).2)

theorem attachPass_eq (fields : List FieldMeta)
    (dataMap : List ((Option Nat × Option Nat) × Entity)) (rows : List Row) :
    attachPass fields dataMap rows =
      rows.foldl (rowStepM fields dataMap) ([], ([] : Missing)) := rfl

theorem fieldsFold_ct_fk (dataMap : List ((Option Nat × Option Nat) × Entity))
    (fields : List FieldMeta) :
    ∀ (item : Row) (miss : Missing) (n : Nat),
    (getRef ((fields.foldl (fun p gfk => attachStep dataMap gfk p.1 p.2)
        (item, miss)).1) n).ct = (getRef item n).ct ∧
    (getRef ((fields.foldl (fun p gfk => attachStep dataMap gfk p.1 p.2)
        (item, miss)).1) n).fk = (getRef item n).fk := by
  induction fields with
  | nil => exact fun item miss n => ⟨rfl, rfl⟩
  | cons g rest ih =>
      intro item miss n
      rw [List.foldl_cons]
      have hpair : attachStep dataMap g item miss =
          ((attachStep dataMap g item miss).1, (attachStep dataMap g item miss).2) := rfl
      have hstep := attachStep_fst_ct_fk dataMap g item miss n
      have hrec := ih (attachStep dataMap g item miss).1
        (attachStep dataMap g item miss).2 n
      rw [show attachStep dataMap g (item, miss).1 (item, miss).2 =
        attachStep dataMap g item miss from rfl, hpair]
      exact ⟨hrec.1.trans hstep.1, hrec.2.trans hstep.2⟩

theorem fieldsFold_recorded_mono (dataMap : List ((Option Nat × Option Nat) × Entity))
    (fields : List FieldMeta) (fld : Nat) (ct fk : Option Nat) :
    ∀ p : Row × Missing, recordedIn p.2 fld ct fk →
    recordedIn ((fields.foldl (fun p gfk => attachStep dataMap gfk p.1 p.2) p).2)
      fld ct fk := by
  induction fields with
  | nil => exact fun p h => h
  | cons g rest ih =>
      intro p h
      rw [List.foldl_cons]
      exact ih _ (recordedIn_attachStep _ _ _ _ _ _ _ h)

theorem fieldsFold_records (dataMap : List ((Option Nat × Option Nat) × Entity))
    (g : FieldMeta)
    (hnn : ¬((g.ctNull = true ∨ g.ctBlank = true) ∧
      (g.fkNull = true ∨ g.fkBlank = true))) :
    ∀ fields : List FieldMeta, g ∈ fields →
    ∀ (item : Row) (miss : Missing),
    (getRef item g.name).fk ≠ none →
    dget ((getRef item g.name).ct, (getRef item g.name).fk) dataMap = none →
    recordedIn ((fields.foldl (fun p gfk => attachStep dataMap gfk p.1 p.2)
        (item, miss)).2) g.name
      (getRef item g.name).ct (getRef item g.name).fk := by
  intro fields
  induction fields with
  | nil => intro hg; simp at hg
  | cons g' rest ih =>
      intro hg item miss hfk hdg
      rw [List.foldl_cons]
      rw [show attachStep dataMap g' (item, miss).1 (item, miss).2 =
        attachStep dataMap g' item miss from rfl]
      rcases List.mem_cons.mp hg with rfl | hg'
      · have hrec := attachStep_records dataMap g item miss hfk hdg hnn
        have hpair : attachStep dataMap g item miss =
            ((attachStep dataMap g item miss).1,
             (attachStep dataMap g item miss).2) := rfl
        rw [hpair]
        exact fieldsFold_recorded_mono _ _ _ _ _ _ hrec
      · have hstep := attachStep_fst_ct_fk dataMap g' item miss g.name
        have hpair : attachStep dataMap g' item miss =
            ((attachStep dataMap g' item miss).1,
             (attachStep dataMap g' item miss).2) := rfl
        rw [hpair]
        have := ih hg' (attachStep dataMap g' item miss).1
          (attachStep dataMap g' item miss).2
          (by rw [hstep.2]; exact hfk) (by rw [hstep.1, hstep.2]; exact hdg)
        rw [hstep.1, hstep.2] at this
        exact this

theorem rowsFold_recorded_mono (fields : List FieldMeta)
    (dataMap : List ((Option Nat × Option Nat) × Entity))
    (fld : Nat) (ct fk : Option Nat) :
    ∀ (rs : List Row) (acc : List Row × Missing), recordedIn acc.2 fld ct fk →
    recordedIn ((rs.foldl (rowStepM fields dataMap) acc).2) fld ct fk := by
  intro rs
  induction rs with
  | nil => exact fun acc h => h
  | cons r rest ih =>
      intro acc h
      rw [List.foldl_cons]
      refine ih _ ?_
      exact fieldsFold_recorded_mono _ _ _ _ _ _ h

theorem attachPass_records (fields : List FieldMeta)
    (dataMap : List ((Option Nat × Option Nat) × Entity)) (rows : List Row)
    (g : FieldMeta) (hg : g ∈ fields)
    (hnn : ¬((g.ctNull = true ∨ g.ctBlank = true) ∧
      (g.fkNull = true ∨ g.fkBlank = true)))
    (r : Row) (hr : r ∈ rows)
    (hfk : (getRef r g.name).fk ≠ none)
    (hdg : dget ((getRef r g.name).ct, (getRef r g.name).fk) dataMap = none) :
    recordedIn (attachPass fields dataMap rows).2 g.name
      (getRef r g.name).ct (getRef r g.name).fk := by
  rw [attachPass_eq]
  suffices hGen : ∀ rs : List Row, r ∈ rs → ∀ acc : List Row × Missing,
      recordedIn ((rs.foldl (rowStepM fields dataMap) acc).2) g.name
        (getRef r g.name).ct (getRef r g.name).fk from hGen rows hr ([], [])
  intro rs
  induction rs with
  | nil => intro h; simp at h
  | cons r0 rest ih =>
      intro h acc
      rw [List.foldl_cons]
      rcases List.mem_cons.mp h with rfl | h'
      · refine rowsFold_recorded_mono _ _ _ _ _ rest _ ?_
        exact fieldsFold_records dataMap g hnn fields hg r acc.2 hfk hdg
      · exact ih h' _

/-- Everything recorded in `missing_records` is a populated identifier whose
`(discriminator, identifier)` pair is absent from `data_map`. -/
def missingSound (dataMap : List ((Option Nat × Option Nat) × Entity))
    (miss : Missing) : Prop :=
  ∀ fe ∈ miss, ∀ ce ∈ fe.2, ∀ v ∈ ce.2,
    v ≠ none ∧ dget (ce.1, v) dataMap = none

theorem missingSound_attachStep (dataMap : List ((Option Nat × Option Nat) × Entity))
    (gfk : FieldMeta) (item : Row) (miss : Missing)
    (h : missingSound dataMap miss) :
    missingSound dataMap (attachStep dataMap gfk item miss).2 := by
  by_cases hfk : (getRef item gfk.name).fk ≠ none
  · cases hdg : dget ((getRef item gfk.name).ct, (getRef item gfk.name).fk) dataMap with
    | some e => rw [attachStep_eq_hit _ _ _ _ _ hfk hdg]; exact h
    | none =>
        by_cases hnull : (gfk.ctNull = true ∨ gfk.ctBlank = true) ∧
            (gfk.fkNull = true ∨ gfk.fkBlank = true)
        · rw [attachStep_eq_nullable _ _ _ _ hfk hdg hnull]; exact h
        · rw [attachStep_eq_miss _ _ _ _ hfk hdg hnull]
          intro fe hfe ce hce v hv
          have hinner : ∀ ce' ∈ (dget gfk.name miss).getD [], ∀ v' ∈ ce'.2,
              v' ≠ none ∧ dget (ce'.1, v') dataMap = none := by
            cases hmi : dget gfk.name miss with
            | none => intro ce' hce'; simp at hce'
            | some ctItems =>
                intro ce' hce' v' hv'
                exact h (gfk.name, ctItems) (dget_mem _ _ _ hmi) ce' hce' v' hv'
          rcases mem_dset _ _ _ _ hfe with rfl | hfe'
          · rcases mem_dset _ _ _ _ hce with rfl | hce'
            · rcases List.mem_append.mp hv with hv' | hv'
              · rcases hobjs : dget (getRef item gfk.name).ct
                    ((dget gfk.name miss).getD []) with - | objs
                · rw [hobjs] at hv'
                  simp at hv'
                · rw [hobjs] at hv'
                  simp only [Option.getD_some] at hv'
                  exact hinner ((getRef item gfk.name).ct, objs)
                    (dget_mem _ _ _ hobjs) v hv'
              · have hveq : v = (getRef item gfk.name).fk := by simpa using hv'
                subst hveq
                exact ⟨hfk, hdg⟩
            · exact hinner ce hce' v hv
          · exact h fe hfe' ce hce v hv
  · rw [attachStep_eq_nofk _ _ _ _ hfk]; exact h

theorem fieldsFold_missingSound (dataMap : List ((Option Nat × Option Nat) × Entity))
    (fields : List FieldMeta) :
    ∀ p : Row × Missing, missingSound dataMap p.2 →
    missingSound dataMap
      ((fields.foldl (fun p gfk => attachStep dataMap gfk p.1 p.2) p).2) := by
  induction fields with
  | nil => exact fun p h => h
  | cons g rest ih =>
      intro p h
      rw [List.foldl_cons]
      exact ih _ (missingSound_attachStep _ _ _ _ h)

theorem attachPass_missingSound (fields : List FieldMeta)
    (dataMap : List ((Option Nat × Option Nat) × Entity)) (rows : List Row) :
    missingSound dataMap (attachPass fields dataMap rows).2 := by
  rw [attachPass_eq]
  suffices hGen : ∀ (rs : List Row) (acc : List Row × Missing),
      missingSound dataMap acc.2 →
      missingSound dataMap ((rs.foldl (rowStepM fields dataMap) acc).2) from
    hGen rows ([], []) (fun fe hfe => by simp at hfe)
  intro rs
  induction rs with
  | nil => exact fun acc h => h
  | cons r rest ih =>
      intro acc h
      rw [List.foldl_cons]
      exact ih _ (fieldsFold_missingSound _ _ _ h)

theorem mem_ctFold (fld : Nat) (ctItems : List (Option Nat × List (Option Nat))) :
    ∀ (qs : List Row) (item : Row),
    item ∈ ctItems.foldl (fun qs ctEntry =>
      qs.filter (fun it => ¬((getRef it fld).ct = ctEntry.1 ∧
        (getRef it fld).fk ∈ ctEntry.2))) qs →
    item ∈ qs ∧ ∀ ce ∈ ctItems, ¬((getRef item fld).ct = ce.1 ∧
      (getRef item fld).fk ∈ ce.2) := by
  induction ctItems with
  | nil => exact fun qs item h => ⟨h, fun ce hce => by simp at hce⟩
  | cons ce rest ih =>
      intro qs item h
      rw [List.foldl_cons] at h
      obtain ⟨hmem, hrest⟩ := ih _ item h
      have hflt := List.mem_filter.mp hmem
      refine ⟨hflt.1, ?_⟩
      intro ce' hce'
      rcases List.mem_cons.mp hce' with rfl | hce''
      · exact of_decide_eq_true hflt.2
      · exact hrest ce' hce''

theorem mem_ctFold_of (fld : Nat) (ctItems : List (Option Nat × List (Option Nat))) :
    ∀ (qs : List Row) (item : Row), item ∈ qs →
    (∀ ce ∈ ctItems, ¬((getRef item fld).ct = ce.1 ∧
      (getRef item fld).fk ∈ ce.2)) →
    item ∈ ctItems.foldl (fun qs ctEntry =>
      qs.filter (fun it => ¬((getRef it fld).ct = ctEntry.1 ∧
        (getRef it fld).fk ∈ ctEntry.2))) qs := by
  induction ctItems with
  | nil => exact fun qs item h _ => h
  | cons ce rest ih =>
      intro qs item h hall
      rw [List.foldl_cons]
      refine ih _ item ?_ (fun ce' hce' => hall ce' (List.mem_cons_of_mem _ hce'))
      exact List.mem_filter.mpr ⟨h, decide_eq_true (hall ce (List.mem_cons_self _ _))⟩

theorem mem_applyExclusions (missing : Missing) :
    ∀ (qs : List Row) (item : Row), item ∈ applyExclusions missing qs →
    item ∈ qs ∧ ∀ fe ∈ missing, ∀ ce ∈ fe.2,
      ¬((getRef item fe.1).ct = ce.1 ∧ (getRef item fe.1).fk ∈ ce.2) := by
  unfold applyExclusions
  induction missing with
  | nil => exact fun qs item h => ⟨h, fun fe hfe => by simp at hfe⟩
  | cons fe rest ih =>
      intro qs item h
      rw [List.foldl_cons] at h
      obtain ⟨hmem, hrest⟩ := ih _ item h
      obtain ⟨hq, hfe⟩ := mem_ctFold fe.1 fe.2 qs item hmem
      refine ⟨hq, ?_⟩
      intro fe' hfe'
      rcases List.mem_cons.mp hfe' with rfl | hfe''
      · exact hfe
      · exact hrest fe' hfe''

theorem mem_applyExclusions_of (missing : Missing) :
    ∀ (qs : List Row) (item : Row), item ∈ qs →
    (∀ fe ∈ missing, ∀ ce ∈ fe.2,
      ¬((getRef item fe.1).ct = ce.1 ∧ (getRef item fe.1).fk ∈ ce.2)) →
    item ∈ applyExclusions missing qs := by
  unfold applyExclusions
  induction missing with
  | nil => exact fun qs item h _ => h
  | cons fe rest ih =>
      intro qs item h hall
      rw [List.foldl_cons]
      refine ih _ item ?_ (fun fe' hfe' => hall fe' (List.mem_cons_of_mem _ hfe'))
      exact mem_ctFold_of fe.1 fe.2 qs item h (hall fe (List.mem_cons_self _ _))

theorem attachStep_getRef_other (dataMap : List ((Option Nat × Option Nat) × Entity))
    (gfk : FieldMeta) (item : Row) (miss : Missing) (n : Nat)
    (hne : n ≠ gfk.name) :
    getRef (attachStep dataMap gfk item miss).1 n = getRef item n := by
  by_cases hfk : (getRef item gfk.name).fk ≠ none
  · cases hdg : dget ((getRef item gfk.name).ct, (getRef item gfk.name).fk) dataMap with
    | some e =>
        rw [attachStep_eq_hit _ _ _ _ _ hfk hdg]
        exact getRef_setAttached_ne _ _ _ _ hne
    | none =>
        by_cases hnull : (gfk.ctNull = true ∨ gfk.ctBlank = true) ∧
            (gfk.fkNull = true ∨ gfk.fkBlank = true)
        · rw [attachStep_eq_nullable _ _ _ _ hfk hdg hnull]
          exact getRef_setAttached_ne _ _ _ _ hne
        · rw [attachStep_eq_miss _ _ _ _ hfk hdg hnull]
  · rw [attachStep_eq_nofk _ _ _ _ hfk]

theorem fieldsFold_getRef_untouched (dataMap : List ((Option Nat × Option Nat) × Entity)) :
    ∀ fields : List FieldMeta, ∀ n : Nat, (∀ g' ∈ fields, g'.name ≠ n) →
    ∀ p : Row × Missing,
    getRef ((fields.foldl (fun p gfk => attachStep dataMap gfk p.1 p.2) p).1) n =
      getRef p.1 n := by
  intro fields
  induction fields with
  | nil => exact fun n _ p => rfl
  | cons g rest ih =>
      intro n hn p
      rw [List.foldl_cons]
      rw [ih n (fun g' hg' => hn g' (List.mem_cons_of_mem _ hg'))]
      exact attachStep_getRef_other _ _ _ _ _
        (fun h => hn g (List.mem_cons_self _ _) h.symm)

theorem fieldsFold_resolves (dataMap : List ((Option Nat × Option Nat) × Entity)) :
    ∀ fields : List FieldMeta, (fields.map FieldMeta.name).Nodup →
    ∀ g ∈ fields, ∀ (item : Row) (miss : Missing) (e : Entity),
    (getRef item g.name).fk ≠ none →
    dget ((getRef item g.name).ct, (getRef item g.name).fk) dataMap = some e →
    getRef ((fields.foldl (fun p gfk => attachStep dataMap gfk p.1 p.2)
        (item, miss)).1) g.name =
      { getRef item g.name with attached := some (some e) } := by
  intro fields
  induction fields with
  | nil => intro _ g hg; simp at hg
  | cons g' rest ih =>
      intro hnd g hg item miss e hfk hdg
      have hn1 : g'.name ∉ rest.map FieldMeta.name := (List.nodup_cons.mp hnd).1
      have hnd' : (rest.map FieldMeta.name).Nodup := (List.nodup_cons.mp hnd).2
      rw [List.foldl_cons]
      rw [show attachStep dataMap g' (item, miss).1 (item, miss).2 =
        attachStep dataMap g' item miss from rfl]
      rcases List.mem_cons.mp hg with rfl | hg'
      · rw [attachStep_eq_hit _ _ _ _ _ hfk hdg]
        rw [fieldsFold_getRef_untouched dataMap rest g.name
          (fun g'' hg'' heq => hn1 (heq ▸ List.mem_map_of_mem FieldMeta.name hg''))]
        exact getRef_setAttached_same _ _ _
      · have hne : g.name ≠ g'.name := by
          intro heq
          exact hn1 (heq ▸ List.mem_map_of_mem FieldMeta.name hg')
        have hother := attachStep_getRef_other dataMap g' item miss g.name hne
        have hpair : attachStep dataMap g' item miss =
            ((attachStep dataMap g' item miss).1,
             (attachStep dataMap g' item miss).2) := rfl
        rw [hpair]
        rw [ih hnd' g hg' (attachStep dataMap g' item miss).1
          (attachStep dataMap g' item miss).2 e
          (by rw [hother]; exact hfk) (by rw [hother]; exact hdg), hother]

theorem attachItem_resolves (dataMap : List ((Option Nat × Option Nat) × Entity))
    (fields : List FieldMeta) (hnd : (fields.map FieldMeta.name).Nodup)
    (g : FieldMeta) (hg : g ∈ fields) (item : Row) (e : Entity)
    (hfk : (getRef item g.name).fk ≠ none)
    (hdg : dget ((getRef item g.name).ct, (getRef item g.name).fk) dataMap = some e) :
    getRef (attachItem dataMap fields item) g.name =
      { getRef item g.name with attached := some (some e) } := by
  rw [← fieldsFold_fst fields dataMap item []]
  exact fieldsFold_resolves dataMap fields hnd g hg item [] e hfk hdg

theorem attachItem_ct_fk (dataMap : List ((Option Nat × Option Nat) × Entity))
    (fields : List FieldMeta) (item : Row) (n : Nat) :
    (getRef (attachItem dataMap fields item) n).ct = (getRef item n).ct ∧
    (getRef (attachItem dataMap fields item) n).fk = (getRef item n).fk := by
  rw [← fieldsFold_fst fields dataMap item []]
  exact fieldsFold_ct_fk dataMap fields item [] n

theorem attachItem_pk (dataMap : List ((Option Nat × Option Nat) × Entity))
    (fields : List FieldMeta) (item : Row) :
    (attachItem dataMap fields item).pk = item.pk := by
  unfold attachItem
  induction fields generalizing item with
  | nil => rfl
  | cons g rest ih =>
      rw [List.foldl_cons, ih, attachStep_fst_pk]

theorem mem_attachStep_snd (dataMap : List ((Option Nat × Option Nat) × Entity))
    (gfk : FieldMeta) (item : Row) (miss : Missing)
    (fe : Nat × List (Option Nat × List (Option Nat)))
    (h : fe ∈ (attachStep dataMap gfk item miss).2) :
    fe.1 = gfk.name ∨ fe ∈ miss := by
  by_cases hfk : (getRef item gfk.name).fk ≠ none
  · cases hdg : dget ((getRef item gfk.name).ct, (getRef item gfk.name).fk) dataMap with
    | some e =>
        rw [attachStep_eq_hit _ _ _ _ _ hfk hdg] at h
        exact .inr h
    | none =>
        by_cases hnull : (gfk.ctNull = true ∨ gfk.ctBlank = true) ∧
            (gfk.fkNull = true ∨ gfk.fkBlank = true)
        · rw [attachStep_eq_nullable _ _ _ _ hfk hdg hnull] at h
          exact .inr h
        · rw [attachStep_eq_miss _ _ _ _ hfk hdg hnull] at h
          rcases mem_dset _ _ _ _ h with rfl | h'
          · exact .inl rfl
          · exact .inr h'
  · rw [attachStep_eq_nofk _ _ _ _ hfk] at h
    exact .inr h

theorem fieldsFold_missing_names (dataMap : List ((Option Nat × Option Nat) × Entity)) :
    ∀ fields : List FieldMeta, ∀ p : Row × Missing,
    ∀ fe ∈ ((fields.foldl (fun p gfk => attachStep dataMap gfk p.1 p.2) p).2),
    (∃ g' ∈ fields, fe.1 = g'.name) ∨ fe ∈ p.2 := by
  intro fields
  induction fields with
  | nil => exact fun p fe h => .inr h
  | cons g rest ih =>
      intro p fe h
      rw [List.foldl_cons] at h
      rcases ih _ fe h with ⟨g', hg', he⟩ | h'
      · exact .inl ⟨g', List.mem_cons_of_mem _ hg', he⟩
      · rcases mem_attachStep_snd _ _ _ _ _ h' with he | h''
        · exact .inl ⟨g, List.mem_cons_self _ _, he⟩
        · exact .inr h''

theorem attachPass_missing_names (fields : List FieldMeta)
    (dataMap : List ((Option Nat × Option Nat) × Entity)) (rows : List Row) :
    ∀ fe ∈ (attachPass fields dataMap rows).2, ∃ g' ∈ fields, fe.1 = g'.name := by
  rw [attachPass_eq]
  suffices hGen : ∀ (rs : List Row) (acc : List Row × Missing),
      ∀ fe ∈ ((rs.foldl (rowStepM fields dataMap) acc).2),
      (∃ g' ∈ fields, fe.1 = g'.name) ∨ fe ∈ acc.2 by
    intro fe hfe
    rcases hGen rows ([], []) fe hfe with h | h
    · exact h
    · simp at h
  intro rs
  induction rs with
  | nil => exact fun acc fe h => .inr h
  | cons r rest ih =>
      intro acc fe h
      rw [List.foldl_cons] at h
      rcases ih _ fe h with h' | h'
      · exact .inl h'
      · exact fieldsFold_missing_names _ _ _ fe h'

end Managers

/-- C2: the dangling row is excluded and nothing raises, but the third
pass's attachments do not survive.  `qs &= qs.exclude(...)` in `managers.py`
drops the evaluated result cache, so whenever any reference dangles — the
claim's own scenario — the surviving rows are re-fetched unresolved.
Evaluated at a two-row input against the store `[{ctId := 1, pk := 7}]`,
with one declared non-nullable field: the row with pk 5 dangles at `(1, 5)`
and is excluded, the sibling with pk 6 references `(1, 7)` which the bulk
fetch did resolve — yet the returned set holds the original row with
`attached = none`, although a direct `(discriminator, identifier)` lookup
finds the entity.  The claim's exclusion and never-raises conjuncts hold;
its "present and resolved" conjunct fails. -/
theorem managers_exclusion_discards_attachments :
    Managers.fetch_generic_relations [1] [⟨1, 7⟩]
        [⟨0, false, false, false, false⟩]
        [⟨5, [(0, ⟨some 1, some 5, none⟩)]⟩, ⟨6, [(0, ⟨some 1, some 7, none⟩)]⟩] =
      Except.ok [⟨6, [(0, ⟨some 1, some 7, none⟩)]⟩] ∧
    directLookup [⟨1, 7⟩] 1 7 = some ⟨1, 7⟩ :=
  ⟨rfl, rfl⟩
